import Mathlib

/-!
Shallow embedding of the `openai-python-cache` repository
(`src/openai_python_cache/provider.py` and `src/openai_python_cache/api.py`).

Request and response payloads are JSON-representable Python values; we model
them with a closed `Json` type restricted to integer numbers (no claim
involves floating-point payload values).  Python dicts preserve insertion
order and cannot hold duplicate keys, so JSON objects are ordered association
lists, with a well-formedness predicate (`Json.wf`) requiring key uniqueness
at every level.

`json.dumps` (default separators, `ensure_ascii=True`) is embedded as
`dumps` / `dumpsSorted`, `json.loads` as `loads`, `hashlib.md5(...).hexdigest()`
as `md5hex` over the UTF-8 bytes of the serialized text, the SQLite `cache`
table as a list of rows, and `CachedChatCompletion.create` as a fuel-indexed
function (`none` = the retry loop has not returned yet), with wall-clock time
idealized so that each remote attempt is instantaneous and `time.sleep(1)`
advances the clock by exactly one unit.
-/

/-- JSON-representable Python values (numbers restricted to integers).
Objects are ordered association lists, mirroring Python dicts. -/
inductive Json where
  | null : Json
  | bool (b : Bool) : Json
  | int (n : Int) : Json
  | str (s : String) : Json
  | arr (xs : List Json) : Json
  | obj (kvs : List (String × Json)) : Json
deriving Repr

/-- Key uniqueness for one object level: no key occurs twice. -/
def nodupKeys : List (String × Json) → Bool
  | [] => true
  | (k, _) :: rest => !(rest.any (fun p => p.1 == k)) && nodupKeys rest

mutual

/-- Well-formed values: every object level has pairwise-distinct keys
(Python dicts cannot represent anything else). -/
def Json.wf : Json → Bool
  | .null => true
  | .bool _ => true
  | .int _ => true
  | .str _ => true
  | .arr xs => wfList xs
  | .obj kvs => nodupKeys kvs && wfEntries kvs

def wfList : List Json → Bool
  | [] => true
  | x :: xs => x.wf && wfList xs

def wfEntries : List (String × Json) → Bool
  | [] => true
  | (_, v) :: rest => v.wf && wfEntries rest

end

/-- Lexicographic comparison of character sequences by code point, the
order Python uses to compare strings. -/
def charsLeB : List Char → List Char → Bool
  | [], _ => true
  | _ :: _, [] => false
  | a :: as, b :: bs =>
    if a.toNat < b.toNat then true
    else if b.toNat < a.toNat then false
    else charsLeB as bs

/-- Python string comparison `a <= b`. -/
def strLeB (a b : String) : Bool := charsLeB a.data b.data

/-- Order on object entries used by `sorted(d.items())`: compare keys.
With distinct keys (the only case a Python dict can produce) the key order
alone determines the sorted sequence. -/
def keyLe (a b : String × Json) : Prop := strLeB a.1 b.1 = true

instance : DecidableRel keyLe := fun a b =>
  inferInstanceAs (Decidable (strLeB a.1 b.1 = true))

mutual

/-- Recursive key-sort canonicalization: `json.dumps(..., sort_keys=True)`
serializes each object with its items sorted by key. -/
def canon : Json → Json
  | .null => .null
  | .bool b => .bool b
  | .int n => .int n
  | .str s => .str s
  | .arr xs => .arr (canonList xs)
  | .obj kvs => .obj (List.insertionSort keyLe (canonEntries kvs))

def canonList : List Json → List Json
  | [] => []
  | x :: xs => canon x :: canonList xs

def canonEntries : List (String × Json) → List (String × Json)
  | [] => []
  | (k, v) :: rest => (k, canon v) :: canonEntries rest

end

/-! ### Serialization: `json.dumps` with default options -/

/-- Decimal digits of `n`, most significant first, accumulator form.  The
first argument is fuel (any value above `n` suffices, since `n` strictly
decreases by division by 10). -/
def natToCharsAux : Nat → Nat → List Char → List Char
  | 0, n, acc => Char.ofNat (48 + n % 10) :: acc
  | fuel + 1, n, acc =>
    let d := Char.ofNat (48 + n % 10)
    if n < 10 then d :: acc else natToCharsAux fuel (n / 10) (d :: acc)

/-- Decimal representation of a natural number (no leading zeros). -/
def natToChars (n : Nat) : List Char := natToCharsAux n n []

/-- Python `repr` of an integer: optional minus sign, then decimal digits. -/
def intToChars : Int → List Char
  | .ofNat n => natToChars n
  | .negSucc m => '-' :: natToChars (m + 1)

/-- Lowercase hexadecimal digit, as produced by Python string formatting. -/
def hexDigitChar (n : Nat) : Char :=
  if n < 10 then Char.ofNat (48 + n) else Char.ofNat (87 + n)

/-- A `\uXXXX` escape (4 lowercase hex digits). -/
def uEscape (n : Nat) : List Char :=
  ['\\', 'u', hexDigitChar (n / 4096 % 16), hexDigitChar (n / 256 % 16),
   hexDigitChar (n / 16 % 16), hexDigitChar (n % 16)]

/-- Escaping of one character per CPython `json` with `ensure_ascii=True`:
backslash, quote and the five short escapes, `\u00xx` for other control
characters, printable ASCII verbatim, `\uxxxx` for other BMP characters and
a surrogate pair of escapes for astral characters. -/
def escapeChar (c : Char) : List Char :=
  if c = '"' then ['\\', '"']
  else if c = '\\' then ['\\', '\\']
  else if c = '\x08' then ['\\', 'b']
  else if c = '\x09' then ['\\', 't']
  else if c = '\x0a' then ['\\', 'n']
  else if c = '\x0c' then ['\\', 'f']
  else if c = '\x0d' then ['\\', 'r']
  else if c.toNat < 0x20 then uEscape c.toNat
  else if c.toNat < 0x7f then [c]
  else if c.toNat < 0x10000 then uEscape c.toNat
  else
    uEscape (0xD800 + (c.toNat - 0x10000) / 0x400) ++
      uEscape (0xDC00 + (c.toNat - 0x10000) % 0x400)

/-- A JSON string literal: quote, escaped characters, quote. -/
def strLit (s : String) : List Char :=
  '"' :: s.data.flatMap escapeChar ++ ['"']

mutual

/-- Characters of `json.dumps(j)` with the default separators
`(", ", ": ")`.  Key order inside objects is emitted as given; sorting for
`sort_keys=True` is applied beforehand by `canon`. -/
def dumpsChars : Json → List Char
  | .null => ['n', 'u', 'l', 'l']
  | .str s => strLit s
  | .bool true => ['t', 'r', 'u', 'e']
  | .int n => intToChars n
  | .bool false => ['f', 'a', 'l', 's', 'e']
  | .arr [] => ['[', ']']
  | .arr (x :: xs) => '[' :: (dumpsChars x ++ dumpsList xs) ++ [']']
  | .obj [] => ['\x7b', '\x7d']
  | .obj ((k, v) :: kvs) =>
      '\x7b' :: (strLit k ++ ':' :: ' ' :: dumpsChars v ++ dumpsEntries kvs) ++ ['\x7d']

/-- Remaining array items, each preceded by the `", "` separator. -/
def dumpsList : List Json → List Char
  | [] => []
  | x :: xs => ',' :: ' ' :: dumpsChars x ++ dumpsList xs

/-- Remaining object members, each preceded by the `", "` separator. -/
def dumpsEntries : List (String × Json) → List Char
  | [] => []
  | (k, v) :: kvs => ',' :: ' ' :: strLit k ++ ':' :: ' ' :: dumpsChars v ++ dumpsEntries kvs

end

/-- The text `json.dumps(j)`. -/
def dumps (j : Json) : String := String.mk (dumpsChars j)

/-- The text `json.dumps(j, sort_keys=True)`. -/
def dumpsSorted (j : Json) : String := dumps (canon j)

/-! ### UTF-8 bytes of a string (`str.encode("utf-8")`) -/

/-- UTF-8 encoding of a single Unicode scalar value, as a list of bytes. -/
def utf8Char (c : Char) : List Nat :=
  let n := c.toNat
  if n < 0x80 then [n]
  else if n < 0x800 then
    [0xC0 + n / 0x40, 0x80 + n % 0x40]
  else if n < 0x10000 then
    [0xE0 + n / 0x1000, 0x80 + n / 0x40 % 0x40, 0x80 + n % 0x40]
  else
    [0xF0 + n / 0x40000, 0x80 + n / 0x1000 % 0x40, 0x80 + n / 0x40 % 0x40, 0x80 + n % 0x40]

/-- The UTF-8 byte sequence of a string. -/
def strBytes (s : String) : List Nat := s.data.flatMap utf8Char

/-! ### MD5 (`hashlib.md5(...).hexdigest()`), RFC 1321, over `Nat % 2^32` -/

/-- Truncation to a 32-bit word. -/
def w32 (n : Nat) : Nat := n % 4294967296

/-- Left rotation of a 32-bit word by `s` bits. -/
def rotl32 (x s : Nat) : Nat := w32 (x * 2 ^ s + x / 2 ^ (32 - s))

/-- The 64 sine-derived round constants of MD5 (RFC 1321 table T). -/
def md5K : List Nat :=
  [0xd76aa478, 0xe8c7b756, 0x242070db, 0xc1bdceee,
   0xf57c0faf, 0x4787c62a, 0xa8304613, 0xfd469501,
   0x698098d8, 0x8b44f7af, 0xffff5bb1, 0x895cd7be,
   0x6b901122, 0xfd987193, 0xa679438e, 0x49b40821,
   0xf61e2562, 0xc040b340, 0x265e5a51, 0xe9b6c7aa,
   0xd62f105d, 0x02441453, 0xd8a1e681, 0xe7d3fbc8,
   0x21e1cde6, 0xc33707d6, 0xf4d50d87, 0x455a14ed,
   0xa9e3e905, 0xfcefa3f8, 0x676f02d9, 0x8d2a4c8a,
   0xfffa3942, 0x8771f681, 0x6d9d6122, 0xfde5380c,
   0xa4beea44, 0x4bdecfa9, 0xf6bb4b60, 0xbebfbc70,
   0x289b7ec6, 0xeaa127fa, 0xd4ef3085, 0x04881d05,
   0xd9d4d039, 0xe6db99e5, 0x1fa27cf8, 0xc4ac5665,
   0xf4292244, 0x432aff97, 0xab9423a7, 0xfc93a039,
   0x655b59c3, 0x8f0ccc92, 0xffeff47d, 0x85845dd1,
   0x6fa87e4f, 0xfe2ce6e0, 0xa3014314, 0x4e0811a1,
   0xf7537e82, 0xbd3af235, 0x2ad7d2bb, 0xeb86d391]

/-- The per-round left-rotation amounts of MD5. -/
def md5S : List Nat :=
  [7, 12, 17, 22, 7, 12, 17, 22, 7, 12, 17, 22, 7, 12, 17, 22,
   5, 9, 14, 20, 5, 9, 14, 20, 5, 9, 14, 20, 5, 9, 14, 20,
   4, 11, 16, 23, 4, 11, 16, 23, 4, 11, 16, 23, 4, 11, 16, 23,
   6, 10, 15, 21, 6, 10, 15, 21, 6, 10, 15, 21, 6, 10, 15, 21]

/-- Bitwise complement of a 32-bit word. -/
def not32 (x : Nat) : Nat := x ^^^ 0xFFFFFFFF

/-- One MD5 round applied to the state `(a, b, c, d)` with message words `m`. -/
def md5Round (m : Nat → Nat) (st : Nat × Nat × Nat × Nat) (i : Nat) :
    Nat × Nat × Nat × Nat :=
  let (a, b, c, d) := st
  let f :=
    if i < 16 then (b &&& c) ||| (not32 b &&& d)
    else if i < 32 then (d &&& b) ||| (not32 d &&& c)
    else if i < 48 then b ^^^ c ^^^ d
    else c ^^^ (b ||| not32 d)
  let g :=
    if i < 16 then i
    else if i < 32 then (5 * i + 1) % 16
    else if i < 48 then (3 * i + 5) % 16
    else 7 * i % 16
  let newB := w32 (b + rotl32 (w32 (a + f + md5K.getD i 0 + m g)) (md5S.getD i 0))
  (d, newB, b, c)

/-- Little-endian byte list of fixed width. -/
def leBytes : Nat → Nat → List Nat
  | 0, _ => []
  | count + 1, n => n % 256 :: leBytes count (n / 256)

/-- Little-endian 32-bit word assembled from 4 bytes of a block. -/
def blockWord (block : List Nat) (g : Nat) : Nat :=
  block.getD (4 * g) 0 + block.getD (4 * g + 1) 0 * 256 +
    block.getD (4 * g + 2) 0 * 65536 + block.getD (4 * g + 3) 0 * 16777216

/-- Process one 64-byte block, updating the running state. -/
def md5Block (st : Nat × Nat × Nat × Nat) (block : List Nat) :
    Nat × Nat × Nat × Nat :=
  let (a0, b0, c0, d0) := st
  let (a, b, c, d) := (List.range 64).foldl (md5Round (blockWord block)) st
  (w32 (a0 + a), w32 (b0 + b), w32 (c0 + c), w32 (d0 + d))

/-- Split a byte list into 64-byte chunks (`fuel` bounds the recursion). -/
def chunks64 : Nat → List Nat → List (List Nat)
  | 0, _ => []
  | _ + 1, [] => []
  | fuel + 1, l => l.take 64 :: chunks64 fuel (l.drop 64)

/-- MD5 padding: `0x80`, zeros to 56 mod 64, then the 64-bit little-endian
bit length. -/
def md5Pad (msg : List Nat) : List Nat :=
  msg ++ 0x80 :: List.replicate ((119 - msg.length % 64) % 64) 0 ++
    leBytes 8 (msg.length * 8 % 2 ^ 64)

/-- Two lowercase hex digits of one byte. -/
def byteHex (b : Nat) : List Char := [hexDigitChar (b / 16 % 16), hexDigitChar (b % 16)]

/-- The MD5 hex digest of a byte sequence (`hashlib.md5(bytes).hexdigest()`). -/
def md5hex (msg : List Nat) : String :=
  let padded := md5Pad msg
  let (a, b, c, d) :=
    (chunks64 (padded.length + 1) padded).foldl md5Block
      (0x67452301, 0xefcdab89, 0x98badcfe, 0x10325476)
  String.mk (((leBytes 4 a ++ leBytes 4 b ++ leBytes 4 c ++ leBytes 4 d).flatMap byteHex))

/-! ### Parsing: `json.loads` (restricted to integer numbers) -/

/-- JSON whitespace accepted between tokens. -/
def isWs (c : Char) : Bool := c = ' ' || c = '\t' || c = '\n' || c = '\r'

/-- Skip leading whitespace. -/
def skipWs (cs : List Char) : List Char := cs.dropWhile isWs

/-- ASCII decimal digit test. -/
def isDigitC (c : Char) : Bool := '0' ≤ c && c ≤ '9'

/-- Value of a hexadecimal digit (both cases accepted, as in Python). -/
def hexVal (c : Char) : Option Nat :=
  if '0' ≤ c && c ≤ '9' then some (c.toNat - 48)
  else if 'a' ≤ c && c ≤ 'f' then some (c.toNat - 87)
  else if 'A' ≤ c && c ≤ 'F' then some (c.toNat - 55)
  else none

/-- Value of four hexadecimal digits. -/
def hexVal4 (a b c d : Char) : Option Nat :=
  match hexVal a, hexVal b, hexVal c, hexVal d with
  | some x, some y, some z, some w => some (4096 * x + 256 * y + 16 * z + w)
  | _, _, _, _ => none

/-- Body of a string literal after the opening quote: returns the decoded
characters and the input after the closing quote.  Surrogate-pair escapes are
combined into one scalar; lone surrogate escapes are rejected (a Unicode
scalar string cannot hold them). -/
def parseStrBody : List Char → Option (List Char × List Char)
  | '"' :: rest => some ([], rest)
  | '\\' :: 'u' :: a :: b :: c :: d :: rest =>
    match hexVal4 a b c d with
    | none => none
    | some n =>
      if 0xD800 ≤ n ∧ n < 0xDC00 then
        match rest with
        | '\\' :: 'u' :: e :: f :: g :: h :: rest' =>
          match hexVal4 e f g h with
          | none => none
          | some n2 =>
            if 0xDC00 ≤ n2 ∧ n2 < 0xE000 then
              (parseStrBody rest').map fun p =>
                (Char.ofNat (0x10000 + (n - 0xD800) * 0x400 + (n2 - 0xDC00)) :: p.1, p.2)
            else none
        | _ => none
      else if 0xDC00 ≤ n ∧ n < 0xE000 then none
      else (parseStrBody rest).map fun p => (Char.ofNat n :: p.1, p.2)
  | '\\' :: e :: rest =>
    (match e with
     | '"' => some '"'
     | '\\' => some '\\'
     | '/' => some '/'
     | 'b' => some '\x08'
     | 'f' => some '\x0c'
     | 'n' => some '\x0a'
     | 'r' => some '\x0d'
     | 't' => some '\x09'
     | _ => none).bind fun (c : Char) =>
      (parseStrBody rest).map fun (p : List Char × List Char) => (c :: p.1, p.2)
  | c :: rest => (parseStrBody rest).map fun p => (c :: p.1, p.2)
  | [] => none

/-- Numeric value of a list of decimal digit characters. -/
def digitsVal (ds : List Char) : Nat := ds.foldl (fun a c => 10 * a + (c.toNat - 48)) 0

/-- Python dict construction from a member list: on a duplicate key the
position of the first occurrence is kept and the value of the last wins. -/
def dictInsert (acc : List (String × Json)) (k : String) (v : Json) :
    List (String × Json) :=
  if acc.any (fun p => p.1 == k) then
    acc.map fun p => if p.1 == k then (k, v) else p
  else acc ++ [(k, v)]

/-- Fold a parsed member list into a Python dict. -/
def dictOfPairs (ps : List (String × Json)) : List (String × Json) :=
  ps.foldl (fun acc p => dictInsert acc p.1 p.2) []

mutual

/-- Recursive-descent JSON value parser (fuel-indexed; `none` also on fuel
exhaustion, which never occurs on the fuel supplied by `loads`).  Numbers are
restricted to integers: a fraction or exponent is rejected rather than
parsed as a float. -/
def parseValue : Nat → List Char → Option (Json × List Char)
  | 0, _ => none
  | fuel + 1, cs =>
    match skipWs cs with
    | 'n' :: 'u' :: 'l' :: 'l' :: rest => some (.null, rest)
    | 't' :: 'r' :: 'u' :: 'e' :: rest => some (.bool true, rest)
    | 'f' :: 'a' :: 'l' :: 's' :: 'e' :: rest => some (.bool false, rest)
    | '"' :: rest => (parseStrBody rest).map fun p => (.str (String.mk p.1), p.2)
    | '[' :: rest =>
      (match skipWs rest with
       | ']' :: rest' => some (.arr [], rest')
       | _ =>
         (parseValue fuel rest).bind fun (v, r1) =>
           (parseItems fuel r1).map fun (vs, r2) => (.arr (v :: vs), r2))
    | '\x7b' :: rest =>
      (match skipWs rest with
       | '\x7d' :: rest' => some (.obj [], rest')
       | _ =>
         (parseMember fuel rest).bind fun (kv, r1) =>
           (parseMembers fuel r1).map fun (kvs, r2) => (.obj (dictOfPairs (kv :: kvs)), r2))
    | c :: rest =>
      if c = '-' ∨ isDigitC c then
        let body := if c = '-' then rest else c :: rest
        let ds := body.takeWhile isDigitC
        let rest' := body.dropWhile isDigitC
        if ds = [] then none
        else if rest'.headD ' ' = '.' ∨ rest'.headD ' ' = 'e' ∨ rest'.headD ' ' = 'E' then
          none
        else if c = '-' then some (.int (-(digitsVal ds : Int)), rest')
        else some (.int (digitsVal ds), rest')
      else none
    | [] => none
termination_by structural fuel _ => fuel

/-- Array continuation: either `]` or `, value` repeated. -/
def parseItems : Nat → List Char → Option (List Json × List Char)
  | 0, _ => none
  | fuel + 1, cs =>
    match skipWs cs with
    | ']' :: rest => some ([], rest)
    | ',' :: rest =>
      (parseValue fuel rest).bind fun (v, r1) =>
        (parseItems fuel r1).map fun (vs, r2) => (v :: vs, r2)
    | _ => none
termination_by structural fuel _ => fuel

/-- One object member: `"key" : value`. -/
def parseMember : Nat → List Char → Option ((String × Json) × List Char)
  | 0, _ => none
  | fuel + 1, cs =>
    match skipWs cs with
    | '"' :: rest =>
      (parseStrBody rest).bind fun (k, r1) =>
        match skipWs r1 with
        | ':' :: r2 => (parseValue fuel r2).map fun (v, r3) => ((String.mk k, v), r3)
        | _ => none
    | _ => none
termination_by structural fuel _ => fuel

/-- Object continuation: either `}` or `, member` repeated. -/
def parseMembers : Nat → List Char → Option (List (String × Json) × List Char)
  | 0, _ => none
  | fuel + 1, cs =>
    match skipWs cs with
    | '\x7d' :: rest => some ([], rest)
    | ',' :: rest =>
      (parseMember fuel rest).bind fun (kv, r1) =>
        (parseMembers fuel r1).map fun (kvs, r2) => (kv :: kvs, r2)
    | _ => none
termination_by structural fuel _ => fuel

end

/-- The embedding of `json.loads`: parse one value, allow trailing
whitespace, reject trailing garbage. -/
def loads (s : String) : Option Json :=
  match parseValue (s.length + 1) s.data with
  | some (j, rest) => if skipWs rest = [] then some j else none
  | none => none

/-! ### The store: `Sqlite3CacheProvider` over the SQLite `cache` table -/

/-- One row of the `cache` table.  `created_at` (a timestamp default we never
read) is omitted: no query in the source selects it. -/
structure CacheRow where
  key : String
  request_params : String
  response : String
deriving Repr

namespace Sqlite3CacheProvider

/-- The body of `hash_params`:
`hashlib.md5(json.dumps(params, sort_keys=True).encode("utf-8")).hexdigest()`.
It is a pure function of the payload alone — it takes no store argument. -/
def hash_params (params : List (String × Json)) : String :=
  md5hex (strBytes (dumpsSorted (.obj params)))

/-- The body of `get`: `SELECT response FROM cache WHERE key = ?` with
`fetchone`, returning the response text of the first matching row, or `None`.
The primary key keeps keys unique, so `find?` is exact. -/
def get (store : List CacheRow) (key : String) : Option String :=
  (store.find? fun r => r.key == key).map fun r => r.response

/-- The body of `insert`: `INSERT OR REPLACE INTO cache (key, request_params,
response) VALUES (?, ?, ?)` with `json.dumps(request, sort_keys=True)` and
`json.dumps(response)`.  Replace-on-conflict deletes any row with the same
key and appends the new row. -/
def insert (store : List CacheRow) (key : String) (request : List (String × Json))
    (response : Json) : List CacheRow :=
  (store.filter fun r => r.key != key) ++
    [⟨key, dumpsSorted (.obj request), dumps response⟩]

/-- The body of `clear`: `DELETE FROM cache`. -/
def clear (_ : List CacheRow) : List CacheRow := []

end Sqlite3CacheProvider

/-! ### The orchestrator: `CachedChatCompletion.create` -/

/-- Classified failure of one remote API invocation.  `transient` is an
exception of the caught class (`openai.APIError`, the "model not ready /
overloaded" signal handled by the retry loop); `fatal` is any other
exception, which no `except` clause catches. -/
inductive RemoteFailure where
  | transient (msg : String) : RemoteFailure
  | fatal (msg : String) : RemoteFailure
deriving Repr

/-- Errors surfaced by `create` to its caller.  The code only ever raises a
remote exception unchanged (`apiError`) or a deserialization failure on the
hit path (`decodeError`).  `retryTimeout` is modelled from the spec: the
spec's §7 describes a `RetryTimeout` wrapper around the last transient
failure; the constructor exists so that statement can be compared with what
the code produces, and no code path of the embedding emits it. -/
inductive CallError where
  | apiError (e : RemoteFailure) : CallError
  | decodeError (text : String) : CallError
  | retryTimeout (e : RemoteFailure) : CallError
deriving Repr

/-- Observable outcome of one `create` call: the returned value or raised
error, the final cache-table state (`none` when no provider was supplied,
so no storage exists to touch), and how many times the remote API was
invoked. -/
structure CallOutcome where
  result : Except CallError Json
  provider : Option (List CacheRow)
  attempts : Nat
deriving Repr

/-- The `while True` retry loop of `create`, starting at attempt index `i`
with `now` time units elapsed since `start`.  Each attempt is instantaneous
and `time.sleep(1)` advances the clock by one unit, so the deadline test
`time.time() > start + timeout` reads `now > timeout`.  A successful call
stores the response and returns it; a fatal exception is not caught and
propagates at once; a transient exception re-raises after the deadline and
otherwise sleeps and retries.  `fuel` bounds the modelled iterations:
`none` means the loop is still running after `fuel` iterations. -/
def createLoop (remote : Nat → Except RemoteFailure Json) (store : List CacheRow)
    (cache_key : String) (kwargs : List (String × Json)) (timeout : Option ℚ) :
    Nat → Nat → ℚ → Option CallOutcome
  | 0, _, _ => none
  | fuel + 1, i, now =>
    match remote i with
    | .ok response =>
      some ⟨.ok response, some (Sqlite3CacheProvider.insert store cache_key kwargs response),
            i + 1⟩
    | .error (.fatal m) => some ⟨.error (.apiError (.fatal m)), some store, i + 1⟩
    | .error (.transient m) =>
      match timeout with
      | some t =>
        if now > t then some ⟨.error (.apiError (.transient m)), some store, i + 1⟩
        else createLoop remote store cache_key kwargs (some t) fuel (i + 1) (now + 1)
      | none => createLoop remote store cache_key kwargs none fuel (i + 1) (now + 1)

/-- The body of `CachedChatCompletion.create`.  Without a cache provider it
performs exactly one remote call and returns its result or propagates its
failure.  With one, it computes the fingerprint, tests the cached text for
Python truthiness (`if cached_response:` — `None` and `""` are both falsy),
decodes on a hit (`json.loads` then `ChatCompletionType.model_validate`,
modelled as the identity on the parsed value, with any failure propagating
uncaught), and otherwise enters the retry loop. -/
def create (remote : Nat → Except RemoteFailure Json)
    (cache_provider : Option (List CacheRow)) (timeout : Option ℚ)
    (kwargs : List (String × Json)) (fuel : Nat) : Option CallOutcome :=
  match cache_provider with
  | none =>
    some ⟨match remote 0 with
          | .ok r => .ok r
          | .error e => .error (.apiError e), none, 1⟩
  | some store =>
    let cache_key := Sqlite3CacheProvider.hash_params kwargs
    match Sqlite3CacheProvider.get store cache_key with
    | some s =>
      if s = "" then createLoop remote store cache_key kwargs timeout fuel 0 0
      else
        some ⟨match loads s with
              | some j => .ok j
              | none => .error (.decodeError s), some store, 0⟩
    | none => createLoop remote store cache_key kwargs timeout fuel 0 0

/-! ### Key-reordered copies of a payload -/

/-- The value stored under key `k`, if any (first match). -/
def lookupKey (k : String) (kvs : List (String × Json)) : Option Json :=
  (kvs.find? fun p => p.1 == k).map fun p => p.2

mutual

/-- Decides whether `q` is a key-reordered copy of `p`: the same keys and
values at every object level with the mapping keys possibly in a different
order, recursively; sequences keep their order.  On well-formed values
(distinct keys per level) this is exactly the spec's notion of
equivalent-but-differently-ordered payloads. -/
def keyReorderedB : Json → Json → Bool
  | .null, .null => true
  | .bool a, .bool b => a == b
  | .int a, .int b => a == b
  | .str a, .str b => a == b
  | .arr xs, .arr ys => krList xs ys
  | .obj l, .obj m => l.length == m.length && krEntries l m
  | _, _ => false

/-- Pointwise key-reordering of sequences (order preserved). -/
def krList : List Json → List Json → Bool
  | [], [] => true
  | x :: xs, y :: ys => keyReorderedB x y && krList xs ys
  | _, _ => false

/-- Every entry of the first object occurs in the second, with a
key-reordered value. -/
def krEntries : List (String × Json) → List (String × Json) → Bool
  | [], _ => true
  | (k, v) :: rest, m =>
    (match lookupKey k m with
     | some v' => keyReorderedB v v'
     | none => false) && krEntries rest m

end

/-! ### Helper notions used by the statements -/

/-- Python truthiness of the optional cached text: `None` and the empty
string are falsy, any other string is truthy. -/
def truthy : Option String → Bool
  | none => false
  | some s => !(s == "")

/-- Verbatim propagation of one remote invocation's outcome, as the
uncached path does: a value is returned as is, an exception is raised as
is. -/
def remoteOutcome : Except RemoteFailure Json → Except CallError Json
  | .ok r => .ok r
  | .error e => .error (.apiError e)

/-- A payload misses the cache when the looked-up text is falsy. -/
def missesCache (store : List CacheRow) (kwargs : List (String × Json)) : Prop :=
  truthy (Sqlite3CacheProvider.get store (Sqlite3CacheProvider.hash_params kwargs)) = false

instance (store : List CacheRow) (kwargs : List (String × Json)) :
    Decidable (missesCache store kwargs) :=
  inferInstanceAs (Decidable (_ = false))

/-- On a falsy cached text, `create` proceeds to the retry loop. -/
theorem create_miss_eq (remote : Nat → Except RemoteFailure Json)
    (store : List CacheRow) (timeout : Option ℚ) (kwargs : List (String × Json))
    (fuel : Nat) (h : missesCache store kwargs) :
    create remote (some store) timeout kwargs fuel =
      createLoop remote store (Sqlite3CacheProvider.hash_params kwargs) kwargs timeout
        fuel 0 0 := by
  unfold missesCache truthy at h
  cases hg : Sqlite3CacheProvider.get store (Sqlite3CacheProvider.hash_params kwargs) with
  | none => simp [create, hg]
  | some s =>
    rw [hg] at h
    simp only [Bool.not_eq_false'] at h
    simp [create, hg, (by simpa using h : s = "")]

/-! ### Claim C6: no-store passthrough -/

/-- C6: when no cache provider is supplied, `create` performs exactly one
remote invocation, touches no storage, and returns that invocation's value
or propagates its failure unchanged — no retry happens even when the
failure is transient (the outcome is the same for every `timeout` and
`fuel`, and the attempt count is always 1). -/
theorem claim6_no_store_passthrough (remote : Nat → Except RemoteFailure Json)
    (timeout : Option ℚ) (kwargs : List (String × Json)) (fuel : Nat) :
    create remote none timeout kwargs fuel =
      some ⟨remoteOutcome (remote 0), none, 1⟩ := by
  cases h : remote 0 <;> simp [create, remoteOutcome, h]

/-! ### Claim C2: a cache hit short-circuits the remote call -/

/-- C2: when the store already holds a (truthy) response text for the
payload's fingerprint and that text decodes, `create` returns the decoded
cached response, leaves the store untouched, and invokes the remote call
zero times (the outcome does not depend on `remote`, `timeout` or `fuel`
at all). -/
theorem claim2_hit_short_circuits (remote : Nat → Except RemoteFailure Json)
    (store : List CacheRow) (timeout : Option ℚ) (kwargs : List (String × Json))
    (fuel : Nat) (s : String) (r : Json)
    (hs : Sqlite3CacheProvider.get store (Sqlite3CacheProvider.hash_params kwargs) = some s)
    (hne : s ≠ "") (hr : loads s = some r) :
    create remote (some store) timeout kwargs fuel = some ⟨.ok r, some store, 0⟩ := by
  simp [create, hs, hne, hr]

set_option maxRecDepth 1000000 in
/-- Witness for C2 at a concrete pre-populated store. -/
theorem claim2_hit_short_circuits_witness :
    create (fun _ => .error (.fatal "remote must not be called"))
        (some [⟨Sqlite3CacheProvider.hash_params [("model", .str "m")], "req", "[7]"⟩])
        (some 2) [("model", .str "m")] 5 =
      some ⟨.ok (.arr [.int 7]),
            some [⟨Sqlite3CacheProvider.hash_params [("model", .str "m")], "req", "[7]"⟩],
            0⟩ :=
  claim2_hit_short_circuits (fun _ => .error (.fatal "remote must not be called"))
    [⟨Sqlite3CacheProvider.hash_params [("model", .str "m")], "req", "[7]"⟩]
    (some 2) [("model", .str "m")] 5 "[7]" (.arr [.int 7]) (by rfl) (by decide) (by rfl)

/-! ### Claim C9: a decode failure on a hit propagates and is not a miss -/

/-- C9: when the store holds a truthy response text for the payload's
fingerprint but that text fails to deserialize, `create` propagates a
decode failure to the caller without falling back to a cache miss: the
remote call is invoked zero times and the store is untouched.  (In the
source both `json.loads` and `ChatCompletionType.model_validate` raise
uncaught on this path; the embedding folds the two deserialization stages
into `loads`.) -/
theorem claim9_decode_failure_propagates (remote : Nat → Except RemoteFailure Json)
    (store : List CacheRow) (timeout : Option ℚ) (kwargs : List (String × Json))
    (fuel : Nat) (s : String)
    (hs : Sqlite3CacheProvider.get store (Sqlite3CacheProvider.hash_params kwargs) = some s)
    (hne : s ≠ "") (hr : loads s = none) :
    create remote (some store) timeout kwargs fuel =
      some ⟨.error (.decodeError s), some store, 0⟩ := by
  simp [create, hs, hne, hr]

set_option maxRecDepth 1000000 in
/-- Witness for C9 at a store whose cached text is not valid JSON. -/
theorem claim9_decode_failure_propagates_witness :
    create (fun _ => .ok .null)
        (some [⟨Sqlite3CacheProvider.hash_params [("model", .str "m")], "req", "not json"⟩])
        none [("model", .str "m")] 5 =
      some ⟨.error (.decodeError "not json"),
            some [⟨Sqlite3CacheProvider.hash_params [("model", .str "m")], "req", "not json"⟩],
            0⟩ :=
  claim9_decode_failure_propagates (fun _ => .ok .null)
    [⟨Sqlite3CacheProvider.hash_params [("model", .str "m")], "req", "not json"⟩]
    none [("model", .str "m")] 5 "not json" (by rfl) (by decide) (by rfl)

/-! ### Claim C10: an empty cached text is treated as a miss -/

/-- C10: when the store holds, under the payload's fingerprint, the empty
string as response text, `create` treats the entry as a cache miss — the
hit check `if cached_response:` tests Python truthiness, and `""` is falsy —
so the remote call is invoked; on its success the live response is
returned and the entry is overwritten. -/
theorem claim10_empty_text_is_miss (remote : Nat → Except RemoteFailure Json)
    (store : List CacheRow) (timeout : Option ℚ) (kwargs : List (String × Json))
    (fuel : Nat) (r : Json)
    (hs : Sqlite3CacheProvider.get store (Sqlite3CacheProvider.hash_params kwargs) = some "")
    (hremote : remote 0 = .ok r) :
    create remote (some store) timeout kwargs (fuel + 1) =
      some ⟨.ok r,
            some (Sqlite3CacheProvider.insert store
              (Sqlite3CacheProvider.hash_params kwargs) kwargs r),
            1⟩ := by
  rw [create_miss_eq]
  · simp [createLoop, hremote]
  · simp [missesCache, truthy, hs]

set_option maxRecDepth 1000000 in
/-- Witness for C10 at a store holding an empty cached text. -/
theorem claim10_empty_text_is_miss_witness :
    create (fun _ => .ok (.int 3))
        (some [⟨Sqlite3CacheProvider.hash_params [("model", .str "m")], "req", ""⟩])
        none [("model", .str "m")] 5 =
      some ⟨.ok (.int 3),
            some (Sqlite3CacheProvider.insert
              [⟨Sqlite3CacheProvider.hash_params [("model", .str "m")], "req", ""⟩]
              (Sqlite3CacheProvider.hash_params [("model", .str "m")])
              [("model", .str "m")] (.int 3)),
            1⟩ :=
  claim10_empty_text_is_miss (fun _ => .ok (.int 3))
    [⟨Sqlite3CacheProvider.hash_params [("model", .str "m")], "req", ""⟩]
    none [("model", .str "m")] 4 (.int 3) (by rfl) (by rfl)

/-! ### Claim C3: a fatal remote failure propagates at once -/

/-- C3: on a cache miss with a store supplied, a non-retryable (fatal)
remote failure on the first attempt propagates immediately: `create`
surfaces it after exactly one remote invocation — zero retries — whatever
the deadline (`timeout` is universally quantified, covering both `None`
and any value). -/
theorem claim3_fatal_short_circuit (remote : Nat → Except RemoteFailure Json)
    (store : List CacheRow) (timeout : Option ℚ) (kwargs : List (String × Json))
    (fuel : Nat) (m : String) (hmiss : missesCache store kwargs)
    (hremote : remote 0 = .error (.fatal m)) :
    create remote (some store) timeout kwargs (fuel + 1) =
      some ⟨.error (.apiError (.fatal m)), some store, 1⟩ := by
  rw [create_miss_eq _ _ _ _ _ hmiss]
  simp [createLoop, hremote]

/-- Witness for C3 at an empty store and a deadline. -/
theorem claim3_fatal_short_circuit_witness :
    create (fun _ => .error (.fatal "401 invalid key")) (some []) (some 9)
        [("model", .str "m")] 6 =
      some ⟨.error (.apiError (.fatal "401 invalid key")), some [], 1⟩ :=
  claim3_fatal_short_circuit (fun _ => .error (.fatal "401 invalid key"))
    [] (some 9) [("model", .str "m")] 5 "401 invalid key" (by decide) (by rfl)

/-! ### Claim C5: without a deadline the loop retries transient failures forever -/

/-- With no deadline, no run of the retry loop ever surfaces a transient
failure: the `except` branch always sleeps and retries. -/
theorem createLoop_none_no_transient (remote : Nat → Except RemoteFailure Json)
    (store : List CacheRow) (k : String) (kw : List (String × Json)) :
    ∀ fuel i now o, createLoop remote store k kw none fuel i now = some o →
      ∀ m, o.result ≠ .error (.apiError (.transient m)) := by
  intro fuel
  induction fuel with
  | zero => intro i now o h; simp [createLoop] at h
  | succ f ih =>
    intro i now o h m
    rw [createLoop] at h
    cases hr : remote i with
    | ok r =>
      rw [hr] at h; simp at h; subst h; simp
    | error e =>
      cases e with
      | fatal s => rw [hr] at h; simp at h; subst h; simp
      | transient s => rw [hr] at h; simp at h; exact ih _ _ _ h m

/-- Any outcome produced from attempt index `i` onwards has counted at
least `i + 1` remote invocations. -/
theorem createLoop_attempts_ge (remote : Nat → Except RemoteFailure Json)
    (store : List CacheRow) (k : String) (kw : List (String × Json))
    (timeout : Option ℚ) :
    ∀ fuel i now o, createLoop remote store k kw timeout fuel i now = some o →
      i + 1 ≤ o.attempts := by
  intro fuel
  induction fuel with
  | zero => intro i now o h; simp [createLoop] at h
  | succ f ih =>
    intro i now o h
    rw [createLoop] at h
    cases hr : remote i with
    | ok r => rw [hr] at h; simp at h; subst h; simp
    | error e =>
      cases e with
      | fatal s => rw [hr] at h; simp at h; subst h; simp
      | transient s =>
        rw [hr] at h
        cases timeout with
        | none =>
          simp at h
          exact Nat.le_of_succ_le (ih _ _ _ h)
        | some t =>
          by_cases hnow : now > t
          · simp [hnow] at h; subst h; simp
          · simp [hnow] at h; exact Nat.le_of_succ_le (ih _ _ _ h)

/-- If the first `d` attempts from index `i` on are transient and there is
no deadline, any outcome has counted at least `i + d + 1` invocations. -/
theorem createLoop_none_transient_progress (remote : Nat → Except RemoteFailure Json)
    (store : List CacheRow) (k : String) (kw : List (String × Json))
    (msg : Nat → String) :
    ∀ d fuel i now o,
      (∀ j, j < i + d → remote j = .error (.transient (msg j))) →
      createLoop remote store k kw none fuel i now = some o →
      i + d + 1 ≤ o.attempts := by
  intro d
  induction d with
  | zero =>
    intro fuel i now o _ h
    simpa using createLoop_attempts_ge _ _ _ _ _ fuel i now o h
  | succ d ih =>
    intro fuel i now o htr h
    cases fuel with
    | zero => simp [createLoop] at h
    | succ f =>
      rw [createLoop, htr i (by omega)] at h
      simp at h
      have := ih f (i + 1) (now + 1) o (fun j hj => htr j (by omega)) h
      omega

/-- C5: with a store supplied and no deadline, if the remote call raises a
transient failure on each of the first `n` attempts then any outcome of
`create` counted at least `n + 1` remote invocations, and no outcome ever
surfaces a transient failure to the caller — the loop retries transient
failures indefinitely. -/
theorem claim5_no_deadline_retries_forever (remote : Nat → Except RemoteFailure Json)
    (store : List CacheRow) (kwargs : List (String × Json)) (msg : Nat → String)
    (n fuel : Nat) (o : CallOutcome) (hmiss : missesCache store kwargs)
    (htr : ∀ j, j < n → remote j = .error (.transient (msg j)))
    (ho : create remote (some store) none kwargs fuel = some o) :
    n + 1 ≤ o.attempts ∧ ∀ m, o.result ≠ .error (.apiError (.transient m)) := by
  rw [create_miss_eq _ _ _ _ _ hmiss] at ho
  refine ⟨?_, createLoop_none_no_transient _ _ _ _ _ _ _ _ ho⟩
  simpa using createLoop_none_transient_progress _ _ _ _ msg n fuel 0 0 o (by simpa using htr) ho

set_option maxRecDepth 1000000 in
/-- Witness for C5: three transient attempts then success, so the outcome
exists and counted four invocations. -/
theorem claim5_no_deadline_retries_forever_witness :
    3 + 1 ≤ (CallOutcome.mk (.ok .null)
        (some (Sqlite3CacheProvider.insert []
          (Sqlite3CacheProvider.hash_params [("model", .str "m")])
          [("model", .str "m")] .null)) 4).attempts :=
  (claim5_no_deadline_retries_forever
    (fun j => if j < 3 then .error (.transient "model warming up") else .ok .null)
    [] [("model", .str "m")] (fun _ => "model warming up") 3 9 _
    (by decide) (fun j hj => by simp [hj]) (by rfl)).1

/-! ### Claim C4: deadline enforcement on persistent transient failure -/

/-- Whether an outcome surfaced the spec's `RetryTimeout` wrapper. -/
def CallOutcome.raisedRetryTimeout (o : CallOutcome) : Bool :=
  match o.result with
  | .error (.retryTimeout _) => true
  | _ => false

/-- With a deadline `t ≥ 0` and an always-transient remote call, the loop
running from attempt `i` (entered `i` time units after the start) exits at
attempt `⌊t⌋ + 1`, the first whose deadline check `now > t` trips, having
counted `⌊t⌋ + 2` invocations, and re-raises that attempt's transient
failure itself. -/
theorem createLoop_deadline_exceeded (remote : Nat → Except RemoteFailure Json)
    (store : List CacheRow) (k : String) (kw : List (String × Json))
    (t : ℚ) (msg : Nat → String) (ht : 0 ≤ t)
    (hrem : ∀ j, remote j = .error (.transient (msg j))) :
    ∀ d fuel i, i + d = Nat.floor t + 1 → d < fuel →
      createLoop remote store k kw (some t) fuel i (i : ℚ) =
        some ⟨.error (.apiError (.transient (msg (Nat.floor t + 1)))), some store,
              Nat.floor t + 2⟩ := by
  intro d
  induction d with
  | zero =>
    intro fuel i hi hf
    cases fuel with
    | zero => omega
    | succ f =>
      have hi' : i = Nat.floor t + 1 := by omega
      subst hi'
      have hnow : ((Nat.floor t + 1 : Nat) : ℚ) > t := by
        have h1 : t < (Nat.floor t : ℚ) + 1 := by
          simpa using Nat.lt_floor_add_one t
        push_cast
        exact h1
      rw [createLoop, hrem]
      simp [hnow]
      intro hcontra
      exfalso
      have h1 : t < (Nat.floor t : ℚ) + 1 := by simpa using Nat.lt_floor_add_one t
      linarith
  | succ d ih =>
    intro fuel i hi hf
    cases fuel with
    | zero => omega
    | succ f =>
      have hle : ¬((i : ℚ) > t) := by
        have : i ≤ Nat.floor t := by omega
        simpa using (Nat.le_floor_iff ht).mp this
      rw [createLoop, hrem i]
      simp only [hle, if_false, gt_iff_lt]
      rw [show ((i : ℚ) + 1) = ((i + 1 : Nat) : ℚ) by push_cast; ring]
      exact ih f (i + 1) (by omega) (by omega)

/-- C4 (amended): with a store, a deadline `t ≥ 0` and a remote call that
raises a transient failure on every attempt, `create` retries exactly while
the elapsed time is within the deadline (each attempt `i ≤ ⌊t⌋` sees
`i ≤ t`), and at the first attempt past it — attempt index `⌊t⌋ + 1`, a
bounded total of `⌊t⌋ + 2` invocations — surfaces the failure by re-raising
that last transient failure itself (not a `RetryTimeout` wrapper). -/
theorem claim4_deadline_surfaces_last_transient (remote : Nat → Except RemoteFailure Json)
    (store : List CacheRow) (kwargs : List (String × Json)) (t : ℚ)
    (msg : Nat → String) (fuel : Nat) (hmiss : missesCache store kwargs)
    (ht : 0 ≤ t) (hrem : ∀ j, remote j = .error (.transient (msg j)))
    (hfuel : Nat.floor t + 1 < fuel) :
    create remote (some store) (some t) kwargs fuel =
        some ⟨.error (.apiError (.transient (msg (Nat.floor t + 1)))), some store,
              Nat.floor t + 2⟩ ∧
      t < ((Nat.floor t + 1 : Nat) : ℚ) ∧
      ∀ i : Nat, i ≤ Nat.floor t → (i : ℚ) ≤ t := by
  refine ⟨?_, by simpa using Nat.lt_floor_add_one t, fun i hi => (Nat.le_floor_iff ht).mp hi⟩
  rw [create_miss_eq _ _ _ _ _ hmiss]
  simpa using createLoop_deadline_exceeded remote store _ kwargs t msg ht hrem
    (Nat.floor t + 1) fuel 0 (by omega) (by omega)

/-- Witness for C4's amended statement at deadline 2: the loop checks the
deadline after each failed attempt at elapsed times 0, 1, 2, 3 and exits on
the fourth attempt, re-raising its transient failure. -/
theorem claim4_deadline_surfaces_last_transient_witness :
    create (fun _ => .error (.transient "model warming up")) (some []) (some 2)
        [("model", .str "m")] 10 =
      some ⟨.error (.apiError (.transient "model warming up")), some [], 4⟩ :=
  (claim4_deadline_surfaces_last_transient
    (fun _ => .error (.transient "model warming up")) [] [("model", .str "m")]
    2 (fun _ => "model warming up") 10 (by decide) (by decide)
    (fun _ => rfl) (by decide)).1

/-- C4 as stated is false on the code: with deadline 2 and an
always-transient remote call, `create` does stop after a bounded number of
attempts (four), but what it surfaces is the last transient failure itself
— the bare `raise` re-raises the caught `APIError` — not a `RetryTimeout`
error wrapping it. -/
theorem claim4_counterexample :
    create (fun _ => .error (.transient "model warming up")) (some []) (some 2)
        [("model", .str "m")] 10 =
      some ⟨.error (.apiError (.transient "model warming up")), some [], 4⟩ ∧
    (create (fun _ => .error (.transient "model warming up")) (some []) (some 2)
        [("model", .str "m")] 10).map CallOutcome.raisedRetryTimeout = some false := by
  have h : create (fun _ => .error (.transient "model warming up")) (some []) (some 2)
      [("model", .str "m")] 10 =
      some ⟨.error (.apiError (.transient "model warming up")), some [], 4⟩ := by
    rw [create_miss_eq _ _ _ _ _ (by decide)]
    simpa using createLoop_deadline_exceeded
      (fun _ => .error (.transient "model warming up")) []
      (Sqlite3CacheProvider.hash_params [("model", .str "m")]) [("model", .str "m")]
      2 (fun _ => "model warming up") (by decide) (fun _ => rfl)
      (Nat.floor (2 : ℚ) + 1) 10 0 (by omega) (by decide)
  exact ⟨h, by rw [h]; rfl⟩

/-! ### Claim C7: `insert` is an upsert -/

/-- Looking up the key just written returns the freshly serialized
response: the replaced-on-conflict row is the one `SELECT ... WHERE key`
finds. -/
theorem get_insert_self (store : List CacheRow) (k : String)
    (req : List (String × Json)) (r : Json) :
    Sqlite3CacheProvider.get (Sqlite3CacheProvider.insert store k req r) k =
      some (dumps r) := by
  unfold Sqlite3CacheProvider.get Sqlite3CacheProvider.insert
  rw [List.find?_append]
  have h1 : List.find? (fun row => row.key == k)
      (store.filter fun row => row.key != k) = none := by
    rw [List.find?_eq_none]
    intro x hx
    simpa using (List.mem_filter.mp hx).2
  rw [h1]
  simp

/-- C7: for every key and responses R1, R2, performing `put(k, …, R1)` then
`put(k, …, R2)` then `lookup(k)` returns (the serialized text of) R2, and
the store then holds exactly one record for `k` — the second put replaced
the first. -/
theorem claim7_upsert_overwrite (store : List CacheRow) (k : String)
    (q1 q2 : List (String × Json)) (R1 R2 : Json) :
    Sqlite3CacheProvider.get
        (Sqlite3CacheProvider.insert
          (Sqlite3CacheProvider.insert store k q1 R1) k q2 R2) k =
      some (dumps R2) ∧
    (Sqlite3CacheProvider.insert
        (Sqlite3CacheProvider.insert store k q1 R1) k q2 R2).countP
      (fun row => row.key == k) = 1 := by
  refine ⟨get_insert_self _ _ _ _, ?_⟩
  unfold Sqlite3CacheProvider.insert
  rw [List.countP_append]
  have h0 : ∀ (l : List CacheRow),
      (l.filter fun row => row.key != k).countP (fun row => row.key == k) = 0 := by
    intro l
    rw [List.countP_eq_zero]
    intro x hx
    simpa using (List.mem_filter.mp hx).2
  rw [h0]
  simp [List.countP_cons]

/-! ### Claim C1: fingerprint invariance under key reordering -/

/-- The code-point order on character lists is total. -/
theorem charsLeB_total : ∀ a b : List Char, charsLeB a b = true ∨ charsLeB b a = true := by
  intro a
  induction a with
  | nil => intro b; left; cases b <;> rfl
  | cons x xs ih =>
    intro b
    cases b with
    | nil => right; rfl
    | cons y ys =>
      by_cases h1 : x.toNat < y.toNat
      · left; simp [charsLeB, h1]
      · by_cases h2 : y.toNat < x.toNat
        · right; simp [charsLeB, h2]
        · rcases ih ys with h | h
          · left; simp [charsLeB, h1, h2, h]
          · right; simp [charsLeB, h1, h2, h]

/-- The code-point order on character lists is transitive. -/
theorem charsLeB_trans : ∀ a b c : List Char,
    charsLeB a b = true → charsLeB b c = true → charsLeB a c = true := by
  intro a
  induction a with
  | nil => intro b c _ _; cases c <;> rfl
  | cons x xs ih =>
    intro b c hab hbc
    cases b with
    | nil => simp [charsLeB] at hab
    | cons y ys =>
      cases c with
      | nil => simp [charsLeB] at hbc
      | cons z zs =>
        simp only [charsLeB] at hab hbc ⊢
        by_cases hxy : x.toNat < y.toNat
        · by_cases hyz : y.toNat < z.toNat
          · simp [show x.toNat < z.toNat by omega]
          · by_cases hzy : z.toNat < y.toNat
            · simp [hyz, hzy] at hbc
            · simp [show x.toNat < z.toNat by omega]
        · by_cases hyx : y.toNat < x.toNat
          · simp [hxy, hyx] at hab
          · by_cases hyz : y.toNat < z.toNat
            · simp [show x.toNat < z.toNat by omega]
            · by_cases hzy : z.toNat < y.toNat
              · simp [hyz, hzy] at hbc
              · simp [hxy, hyx] at hab
                simp [hyz, hzy] at hbc
                simp [show ¬x.toNat < z.toNat by omega, show ¬z.toNat < x.toNat by omega]
                exact ih ys zs hab hbc

/-- The code-point order on character lists is antisymmetric. -/
theorem charsLeB_antisymm : ∀ a b : List Char,
    charsLeB a b = true → charsLeB b a = true → a = b := by
  intro a
  induction a with
  | nil => intro b _ hba; cases b with
    | nil => rfl
    | cons y ys => simp [charsLeB] at hba
  | cons x xs ih =>
    intro b hab hba
    cases b with
    | nil => simp [charsLeB] at hab
    | cons y ys =>
      simp only [charsLeB] at hab hba
      by_cases hxy : x.toNat < y.toNat
      · simp [show ¬y.toNat < x.toNat by omega, hxy] at hba
      · by_cases hyx : y.toNat < x.toNat
        · simp [hxy, hyx] at hab
        · simp [hxy, hyx] at hab hba
          have hx : x = y := by
            rw [← Char.ofNat_toNat x, ← Char.ofNat_toNat y,
              show x.toNat = y.toNat by omega]
          rw [hx, ih ys hab hba]

instance : IsTotal (String × Json) keyLe :=
  ⟨fun a b => by
    rcases charsLeB_total a.1.data b.1.data with h | h
    · exact Or.inl h
    · exact Or.inr h⟩

instance : IsTrans (String × Json) keyLe :=
  ⟨fun _ _ _ hab hbc => charsLeB_trans _ _ _ hab hbc⟩

/-- Keys related both ways by `strLeB` are equal. -/
theorem strLeB_antisymm (a b : String) (hab : strLeB a b = true)
    (hba : strLeB b a = true) : a = b := by
  cases a; cases b
  exact congrArg String.mk (charsLeB_antisymm _ _ hab hba)

/-- Two key-sorted entry lists that are permutations of each other and have
pairwise-distinct keys are equal: with distinct keys the key order is
strict, so the sorted sequence is unique. -/
theorem sorted_perm_nodupKeys_eq (l₁ l₂ : List (String × Json))
    (hperm : l₁.Perm l₂) (hs₁ : List.Sorted keyLe l₁) (hs₂ : List.Sorted keyLe l₂)
    (hk₁ : (l₁.map Prod.fst).Nodup) : l₁ = l₂ := by
  have hk₂ : (l₂.map Prod.fst).Nodup := ((hperm.map Prod.fst).nodup_iff).mp hk₁
  haveI : IsAntisymm (String × Json) (fun a b => keyLe a b ∧ a.1 ≠ b.1 ∨ a = b) := by
    constructor
    intro a b hab hba
    rcases hab with ⟨hle, hne⟩ | he
    · rcases hba with ⟨hle', _⟩ | he'
      · exact absurd (strLeB_antisymm _ _ hle hle') hne
      · exact he'.symm
    · exact he
  refine List.eq_of_perm_of_sorted (r := fun a b => keyLe a b ∧ a.1 ≠ b.1 ∨ a = b)
    hperm ?_ ?_
  · exact ((hs₁.and (List.pairwise_map.mp hk₁)).imp fun h => Or.inl h)
  · exact ((hs₂.and (List.pairwise_map.mp hk₂)).imp fun h => Or.inl h)

/-- `nodupKeys` decides key-distinctness of the entry list. -/
theorem nodupKeys_iff : ∀ l : List (String × Json),
    nodupKeys l = true ↔ (l.map Prod.fst).Nodup := by
  intro l
  induction l with
  | nil => simp [nodupKeys]
  | cons p rest ih =>
    cases p with
    | mk k v =>
      simp only [nodupKeys, Bool.and_eq_true, Bool.not_eq_true', List.map_cons,
        List.nodup_cons, ih]
      constructor
      · rintro ⟨h1, h2⟩
        refine ⟨?_, h2⟩
        intro hk
        rcases List.mem_map.mp hk with ⟨q, hq, hqk⟩
        have : (List.any rest fun p => p.1 == k) = true :=
          List.any_eq_true.mpr ⟨q, hq, by simp [hqk]⟩
        simp [this] at h1
      · rintro ⟨h1, h2⟩
        refine ⟨?_, h2⟩
        rw [List.any_eq_false]
        intro q hq
        simp only [beq_iff_eq]
        intro hqk
        exact h1 (List.mem_map.mpr ⟨q, hq, hqk⟩)

/-- Values of a well-formed entry list are well-formed. -/
theorem wfEntries_mem : ∀ l : List (String × Json), wfEntries l = true →
    ∀ p ∈ l, p.2.wf = true := by
  intro l
  induction l with
  | nil => intro _ p hp; simp at hp
  | cons q rest ih =>
    cases q with
    | mk k v =>
      intro h p hp
      simp only [wfEntries, Bool.and_eq_true] at h
      rcases List.mem_cons.mp hp with rfl | hmem
      · exact h.1
      · exact ih h.2 p hmem

/-- Elements of a well-formed sequence are well-formed. -/
theorem wfList_mem : ∀ xs : List Json, wfList xs = true →
    ∀ x ∈ xs, x.wf = true := by
  intro xs
  induction xs with
  | nil => intro _ x hx; simp at hx
  | cons y rest ih =>
    intro h x hx
    simp only [wfList, Bool.and_eq_true] at h
    rcases List.mem_cons.mp hx with rfl | hmem
    · exact h.1
    · exact ih h.2 x hmem

/-- Each entry of the first object finds a related value in the second. -/
theorem krEntries_lookup : ∀ l m : List (String × Json), krEntries l m = true →
    ∀ p ∈ l, ∃ v', lookupKey p.1 m = some v' ∧ keyReorderedB p.2 v' = true := by
  intro l m
  induction l with
  | nil => intro _ p hp; simp at hp
  | cons q rest ih =>
    cases q with
    | mk k v =>
      intro h p hp
      rw [krEntries, Bool.and_eq_true] at h
      rcases List.mem_cons.mp hp with rfl | hmem
      · rcases hl : lookupKey k m with _ | v'
        · rw [hl] at h; simp at h
        · rw [hl] at h; exact ⟨v', rfl, h.1⟩
      · exact ih h.2 p hmem

/-- A successful key lookup certifies membership of the entry. -/
theorem lookupKey_mem (k : String) (m : List (String × Json)) (v : Json)
    (h : lookupKey k m = some v) : (k, v) ∈ m := by
  unfold lookupKey at h
  rcases hf : List.find? (fun p => p.1 == k) m with _ | p
  · rw [hf] at h; simp at h
  · rw [hf] at h
    simp at h
    have hk : p.1 = k := by simpa using List.find?_some hf
    have hm := List.mem_of_find?_eq_some hf
    cases p with
    | mk k' v' =>
      cases hk
      cases h
      exact hm

/-- `canonEntries` is entrywise canonicalization. -/
theorem canonEntries_map : ∀ l : List (String × Json),
    canonEntries l = l.map fun p => (p.1, canon p.2) := by
  intro l
  induction l with
  | nil => rfl
  | cons p rest ih => cases p with
    | mk k v => simpa [canonEntries] using ih

/-- `canonList` is elementwise canonicalization. -/
theorem canonList_map : ∀ xs : List Json, canonList xs = xs.map canon := by
  intro xs
  induction xs with
  | nil => rfl
  | cons x rest ih => simpa [canonList] using ih

/-- Structural induction over `Json` with membership hypotheses for the
nested lists. -/
theorem Json.recMem {P : Json → Prop} (hnull : P .null) (hbool : ∀ b, P (.bool b))
    (hint : ∀ n, P (.int n)) (hstr : ∀ s, P (.str s))
    (harr : ∀ xs, (∀ x ∈ xs, P x) → P (.arr xs))
    (hobj : ∀ kvs, (∀ p ∈ kvs, P p.2) → P (.obj kvs)) : ∀ j, P j
  | .null => hnull
  | .bool b => hbool b
  | .int n => hint n
  | .str s => hstr s
  | .arr xs => harr xs fun x hx =>
      Json.recMem hnull hbool hint hstr harr hobj x
  | .obj kvs => hobj kvs fun p hp =>
      Json.recMem hnull hbool hint hstr harr hobj p.2
termination_by j => sizeOf j
decreasing_by
  · have := List.sizeOf_lt_of_mem hx
    simp only [Json.arr.sizeOf_spec]
    omega
  · have h1 := List.sizeOf_lt_of_mem hp
    have h2 : sizeOf p.2 < sizeOf p := by
      cases p with
      | mk a b => simp
    simp only [Json.obj.sizeOf_spec]
    omega

/-- Canonicalization identifies key-reordered well-formed payloads: the
recursive key sort erases the only difference between them. -/
theorem canon_eq_of_keyReordered :
    ∀ p q, p.wf = true → q.wf = true → keyReorderedB p q = true →
      canon p = canon q := by
  intro p
  induction p using Json.recMem with
  | hnull =>
    intro q _ _ h
    cases q <;> simp [keyReorderedB] at h
    rfl
  | hbool b =>
    intro q _ _ h
    cases q <;> simp [keyReorderedB] at h
    rw [h]
  | hint n =>
    intro q _ _ h
    cases q <;> simp [keyReorderedB] at h
    rw [h]
  | hstr s =>
    intro q _ _ h
    cases q <;> simp [keyReorderedB] at h
    rw [h]
  | harr xs ih =>
    intro q hp hq h
    cases q with
    | arr ys =>
      simp only [Json.wf] at hp hq
      simp only [keyReorderedB] at h
      simp only [canon]
      congr 1
      have key : ∀ xs' ys',
          (∀ x ∈ xs', ∀ q', x.wf = true → q'.wf = true →
            keyReorderedB x q' = true → canon x = canon q') →
          wfList xs' = true → wfList ys' = true → krList xs' ys' = true →
          canonList xs' = canonList ys' := by
        intro xs'
        induction xs' with
        | nil =>
          intro ys' _ _ _ hk
          cases ys' with
          | nil => rfl
          | cons y rest => simp [krList] at hk
        | cons x rest ihl =>
          intro ys' hmem hwx hwy hk
          cases ys' with
          | nil => simp [krList] at hk
          | cons y rest' =>
            simp only [krList, Bool.and_eq_true] at hk
            simp only [wfList, Bool.and_eq_true] at hwx hwy
            simp only [canonList]
            rw [hmem x (by simp) y hwx.1 hwy.1 hk.1,
              ihl rest' (fun x' hx' => hmem x' (by simp [hx'])) hwx.2 hwy.2 hk.2]
      exact key xs ys ih hp hq h
    | null => simp [keyReorderedB] at h
    | bool b => simp [keyReorderedB] at h
    | int n => simp [keyReorderedB] at h
    | str s => simp [keyReorderedB] at h
    | obj m => simp [keyReorderedB] at h
  | hobj kvs ih =>
    intro q hp hq h
    cases q with
    | obj m =>
      simp only [Json.wf, Bool.and_eq_true] at hp hq
      simp only [keyReorderedB, Bool.and_eq_true, beq_iff_eq] at h
      simp only [canon]
      congr 1
      -- the canonicalized entry lists are permutations of each other
      have hsub : ∀ e ∈ canonEntries kvs, e ∈ canonEntries m := by
        intro e he
        rw [canonEntries_map] at he
        rcases List.mem_map.mp he with ⟨⟨k, v⟩, hkv, rfl⟩
        rcases krEntries_lookup kvs m h.2 ⟨k, v⟩ hkv with ⟨v', hl, hkr⟩
        have hmem' : (k, v') ∈ m := lookupKey_mem k m v' hl
        have hcv : canon v = canon v' :=
          ih ⟨k, v⟩ hkv v' (wfEntries_mem kvs hp.2 ⟨k, v⟩ hkv)
            (wfEntries_mem m hq.2 ⟨k, v'⟩ hmem') hkr
        rw [canonEntries_map]
        exact List.mem_map.mpr ⟨⟨k, v'⟩, hmem', by simp [hcv]⟩
      have hkeys : ∀ l : List (String × Json),
          (canonEntries l).map Prod.fst = l.map Prod.fst := by
        intro l
        rw [canonEntries_map, List.map_map]
        rfl
      have hnodup₁ : ((canonEntries kvs).map Prod.fst).Nodup := by
        rw [hkeys]; exact (nodupKeys_iff kvs).mp hp.1
      have hnodupe : (canonEntries kvs).Nodup := by
        have := List.pairwise_map.mp hnodup₁
        exact this.imp fun hne heq => hne (congrArg Prod.fst heq)
      have hlen : (canonEntries m).length ≤ (canonEntries kvs).length := by
        rw [canonEntries_map, canonEntries_map, List.length_map, List.length_map, h.1]
      have hperm : (canonEntries kvs).Perm (canonEntries m) :=
        (List.Nodup.subperm hnodupe hsub).perm_of_length_le hlen
      exact sorted_perm_nodupKeys_eq _ _
        ((List.perm_insertionSort keyLe _).trans
          (hperm.trans (List.perm_insertionSort keyLe _).symm))
        (List.sorted_insertionSort keyLe _) (List.sorted_insertionSort keyLe _)
        (((List.perm_insertionSort keyLe (canonEntries kvs)).map Prod.fst).nodup_iff.mpr
          hnodup₁)
    | null => simp [keyReorderedB] at h
    | bool b => simp [keyReorderedB] at h
    | int n => simp [keyReorderedB] at h
    | str s => simp [keyReorderedB] at h
    | arr ys => simp [keyReorderedB] at h

/-- C1: `hash_params` gives equal fingerprints to any two well-formed
payloads that are key-reordered copies of each other (same keys and values,
mapping keys in any order, recursively) — in particular to a payload and
itself, so repeated calls agree.  Purity is by construction: the embedded
`hash_params` is a function of the payload alone and takes no store
argument, mirroring the source method, which only serializes and hashes its
`params` argument and never touches the database connection. -/
theorem claim1_fingerprint_key_reorder_invariant (p q : List (String × Json))
    (hp : (Json.obj p).wf = true) (hq : (Json.obj q).wf = true)
    (h : keyReorderedB (.obj p) (.obj q) = true) :
    Sqlite3CacheProvider.hash_params p = Sqlite3CacheProvider.hash_params q := by
  unfold Sqlite3CacheProvider.hash_params dumpsSorted
  rw [canon_eq_of_keyReordered _ _ hp hq h]

/-- Witness for C1 on a payload with nested objects and shuffled keys at
both levels. -/
theorem claim1_fingerprint_key_reorder_invariant_witness :
    Sqlite3CacheProvider.hash_params
        [("model", .str "gpt-4o-mini"),
         ("opts", .obj [("a", .int 1), ("b", .null)]), ("seed", .int 7)] =
      Sqlite3CacheProvider.hash_params
        [("seed", .int 7), ("model", .str "gpt-4o-mini"),
         ("opts", .obj [("b", .null), ("a", .int 1)])] :=
  claim1_fingerprint_key_reorder_invariant _ _ (by decide) (by decide) (by decide)

/-! ### Claim C8: serialize → store → deserialize round-trip -/

/-- `Char.ofNat` inverts `Char.toNat` on valid scalar values. -/
theorem Char.toNat_ofNat_valid (k : Nat) (h : k.isValidChar) :
    (Char.ofNat k).toNat = k := by
  unfold Char.ofNat
  rw [dif_pos h]
  rfl

/-- Scalar values below the surrogate range are valid. -/
theorem isValidChar_of_lt (k : Nat) (h : k < 55296) : k.isValidChar := Or.inl h

/-- A digit character's code point determines it. -/
theorem char_eq_of_toNat_eq {a b : Char} (h : a.toNat = b.toNat) : a = b := by
  rw [← Char.ofNat_toNat a, ← Char.ofNat_toNat b, h]

/-- The code-point bounds defining `isDigitC`. -/
theorem isDigitC_toNat {c : Char} (h : isDigitC c = true) :
    48 ≤ c.toNat ∧ c.toNat ≤ 57 := by
  simp only [isDigitC, Bool.and_eq_true, decide_eq_true_eq] at h
  exact ⟨h.1, h.2⟩

/-- The decimal digit characters produced for `k < 10`. -/
theorem digitChar_isDigit : ∀ k, k < 10 → isDigitC (Char.ofNat (48 + k)) = true := by
  decide

/-- Code point of a produced decimal digit. -/
theorem digitChar_toNat (k : Nat) (h : k < 10) :
    (Char.ofNat (48 + k)).toNat = 48 + k :=
  Char.toNat_ofNat_valid _ (isValidChar_of_lt _ (by omega))

/-- Decimal digit list of `n` (most significant first), used as the
specification of `natToChars`. -/
def natDigits (n : Nat) : List Char :=
  if _ : n < 10 then [Char.ofNat (48 + n % 10)]
  else natDigits (n / 10) ++ [Char.ofNat (48 + n % 10)]
decreasing_by exact Nat.div_lt_self (by omega) (by omega)

/-- The fuel-indexed accumulator form computes `natDigits`. -/
theorem natToCharsAux_eq : ∀ fuel n acc, n ≤ fuel →
    natToCharsAux fuel n acc = natDigits n ++ acc := by
  intro fuel
  induction fuel with
  | zero =>
    intro n acc hn
    rw [show n = 0 by omega]
    rw [natToCharsAux, natDigits]
    simp
  | succ f ih =>
    intro n acc hn
    rw [natToCharsAux, natDigits]
    by_cases h : n < 10
    · simp [h]
    · simp only [h, dif_neg, if_neg]
      rw [ih (n / 10) _ (by omega)]
      simp

/-- `natToChars` meets its digit-list specification. -/
theorem natToChars_eq (n : Nat) : natToChars n = natDigits n := by
  rw [natToChars, natToCharsAux_eq n n [] le_rfl]
  simp

/-- The digit list is never empty. -/
theorem natDigits_ne_nil (n : Nat) : natDigits n ≠ [] := by
  rw [natDigits]
  by_cases h : n < 10 <;> simp [h]

/-- Every character of the digit list is a decimal digit. -/
theorem natDigits_all_digits (n : Nat) : ∀ c ∈ natDigits n, isDigitC c = true := by
  induction n using Nat.strong_induction_on with
  | _ n ih =>
    rw [natDigits]
    by_cases h : n < 10
    · simp only [h, dif_pos]
      intro c hc
      simp only [List.mem_singleton] at hc
      subst hc
      exact digitChar_isDigit _ (by omega)
    · simp only [h, dif_neg]
      intro c hc
      rcases List.mem_append.mp hc with h1 | h1
      · exact ih (n / 10) (Nat.div_lt_self (by omega) (by omega)) c h1
      · simp only [List.mem_singleton] at h1
        subst h1
        exact digitChar_isDigit _ (by omega)

/-- `digitsVal` of a snoc. -/
theorem digitsVal_append_singleton (l : List Char) (c : Char) :
    digitsVal (l ++ [c]) = 10 * digitsVal l + (c.toNat - 48) := by
  unfold digitsVal
  rw [List.foldl_append]
  rfl

/-- `digitsVal` inverts `natDigits`. -/
theorem digitsVal_natDigits (n : Nat) : digitsVal (natDigits n) = n := by
  induction n using Nat.strong_induction_on with
  | _ n ih =>
    rw [natDigits]
    by_cases h : n < 10
    · simp only [h, dif_pos]
      show digitsVal ([] ++ [Char.ofNat (48 + n % 10)]) = n
      rw [digitsVal_append_singleton, digitChar_toNat _ (by omega)]
      simp [digitsVal]
      omega
    · rw [dif_neg h]
      rw [digitsVal_append_singleton, ih (n / 10) (Nat.div_lt_self (by omega) (by omega)),
        digitChar_toNat _ (by omega)]
      omega

/-- `takeWhile` passes over a prefix on which the predicate holds. -/
theorem takeWhile_append_all (p : Char → Bool) :
    ∀ l₁ l₂ : List Char, (∀ c ∈ l₁, p c = true) →
      (l₁ ++ l₂).takeWhile p = l₁ ++ l₂.takeWhile p := by
  intro l₁
  induction l₁ with
  | nil => intro l₂ _; rfl
  | cons c l ih =>
    intro l₂ h
    rw [List.cons_append, List.takeWhile_cons, h c (by simp), List.cons_append,
      ih l₂ (fun c' hc' => h c' (by simp [hc']))]
    rfl

/-- `dropWhile` removes exactly a prefix on which the predicate holds when
the remainder starts falsy (or is empty). -/
theorem dropWhile_append_all (p : Char → Bool) :
    ∀ l₁ l₂ : List Char, (∀ c ∈ l₁, p c = true) →
      (l₁ ++ l₂).dropWhile p = l₂.dropWhile p := by
  intro l₁
  induction l₁ with
  | nil => intro l₂ _; rfl
  | cons c l ih =>
    intro l₂ h
    rw [List.cons_append, List.dropWhile_cons, if_pos (h c (by simp)),
      ih l₂ (fun c' hc' => h c' (by simp [hc']))]

/-- `takeWhile` stops at once on a falsy head. -/
theorem takeWhile_cons_neg (p : Char → Bool) (c : Char) (l : List Char)
    (h : p c = false) : (c :: l).takeWhile p = [] := by
  rw [List.takeWhile_cons, h]
  rfl

/-- `dropWhile` keeps a list whose head is falsy. -/
theorem dropWhile_cons_neg (p : Char → Bool) (c : Char) (l : List Char)
    (h : p c = false) : (c :: l).dropWhile p = c :: l := by
  rw [List.dropWhile_cons, h]
  rfl

/-- Skipping whitespace is the identity on a non-whitespace head. -/
theorem skipWs_cons_neg (c : Char) (l : List Char) (h : isWs c = false) :
    skipWs (c :: l) = c :: l :=
  dropWhile_cons_neg _ _ _ h

/-- Skipping whitespace drops a whitespace head. -/
theorem skipWs_cons_pos (c : Char) (l : List Char) (h : isWs c = true) :
    skipWs (c :: l) = skipWs l := by
  unfold skipWs
  rw [List.dropWhile_cons, h]
  rfl

/-- `parseValue` itself skips a leading whitespace character. -/
theorem parseValue_cons_ws (fuel : Nat) (c : Char) (l : List Char)
    (h : isWs c = true) : parseValue fuel (c :: l) = parseValue fuel l := by
  cases fuel with
  | zero => rfl
  | succ f => rw [parseValue, parseValue, skipWs_cons_pos c l h]

/-- `hexVal` inverts `hexDigitChar` on hex digits. -/
theorem hexVal_hexDigitChar : ∀ d, d < 16 → hexVal (hexDigitChar d) = some d := by
  decide

/-- The four emitted hex digits of a `\uXXXX` escape recombine to `n`. -/
theorem hexVal4_uEscape (n : Nat) (h : n < 65536) :
    hexVal4 (hexDigitChar (n / 4096 % 16)) (hexDigitChar (n / 256 % 16))
      (hexDigitChar (n / 16 % 16)) (hexDigitChar (n % 16)) = some n := by
  unfold hexVal4
  rw [hexVal_hexDigitChar _ (by omega), hexVal_hexDigitChar _ (by omega),
    hexVal_hexDigitChar _ (by omega), hexVal_hexDigitChar _ (by omega)]
  simp only [Option.some.injEq]
  omega

/-- Parsing a single non-surrogate `\uXXXX` escape yields its scalar. -/
theorem parseStrBody_uEscape (n : Nat) (rest : List Char) (hn : n < 65536)
    (hs1 : ¬(0xD800 ≤ n ∧ n < 0xDC00)) (hs2 : ¬(0xDC00 ≤ n ∧ n < 0xE000)) :
    parseStrBody (uEscape n ++ rest) =
      (parseStrBody rest).map fun p => (Char.ofNat n :: p.1, p.2) := by
  show parseStrBody ('\\' :: 'u' :: _ :: _ :: _ :: _ :: rest) = _
  rw [parseStrBody]
  simp only [hexVal4_uEscape n hn]
  rw [if_neg hs1, if_neg hs2]

/-- Parsing a surrogate-pair escape yields the combined scalar. -/
theorem parseStrBody_surrogatePair (hi lo : Nat) (rest : List Char)
    (hhi : 0xD800 ≤ hi ∧ hi < 0xDC00) (hlo : 0xDC00 ≤ lo ∧ lo < 0xE000) :
    parseStrBody (uEscape hi ++ uEscape lo ++ rest) =
      (parseStrBody rest).map fun p =>
        (Char.ofNat (0x10000 + (hi - 0xD800) * 0x400 + (lo - 0xDC00)) :: p.1, p.2) := by
  show parseStrBody ('\\' :: 'u' :: _ :: _ :: _ :: _ :: ('\\' :: 'u' :: _ :: _ :: _ :: _ :: rest)) = _
  rw [parseStrBody]
  simp only [hexVal4_uEscape hi (by omega)]
  rw [if_pos hhi]
  simp only [hexVal4_uEscape lo (by omega)]
  rw [if_pos hlo]

/-- Parsing an unescaped character consumes it verbatim. -/
theorem parseStrBody_cons_plain (c : Char) (rest : List Char)
    (h1 : c ≠ '"') (h2 : c ≠ '\\') :
    parseStrBody (c :: rest) =
      (parseStrBody rest).map fun p => (c :: p.1, p.2) := by
  rw [parseStrBody.eq_def]
  split <;> simp_all

/-- Unescaping inverts escaping, one character at a time: parsing the
escape sequence emitted for `c` produces exactly `c` and continues. -/
theorem parseStrBody_escapeChar (c : Char) (rest : List Char) :
    parseStrBody (escapeChar c ++ rest) =
      (parseStrBody rest).map fun p => (c :: p.1, p.2) := by
  have hvalid : Nat.isValidChar c.toNat := c.valid
  by_cases h1 : c = '"'
  · subst h1; rfl
  by_cases h2 : c = '\\'
  · subst h2; rfl
  by_cases h3 : c = '\x08'
  · subst h3; rfl
  by_cases h4 : c = '\x09'
  · subst h4; rfl
  by_cases h5 : c = '\x0a'
  · subst h5; rfl
  by_cases h6 : c = '\x0c'
  · subst h6; rfl
  by_cases h7 : c = '\x0d'
  · subst h7; rfl
  have hesc : ∀ tail : List Char,
      escapeChar c ++ tail =
        (if c.toNat < 0x20 then uEscape c.toNat
         else if c.toNat < 0x7f then [c]
         else if c.toNat < 0x10000 then uEscape c.toNat
         else uEscape (0xD800 + (c.toNat - 0x10000) / 0x400) ++
           uEscape (0xDC00 + (c.toNat - 0x10000) % 0x400)) ++ tail := by
    intro tail
    unfold escapeChar
    rw [if_neg h1, if_neg h2, if_neg h3, if_neg h4, if_neg h5, if_neg h6, if_neg h7]
  by_cases hr1 : c.toNat < 0x20
  · rw [hesc, if_pos hr1,
      parseStrBody_uEscape _ _ (by omega) (by omega) (by omega), Char.ofNat_toNat]
  by_cases hr2 : c.toNat < 0x7f
  · rw [hesc, if_neg hr1, if_pos hr2]
    exact parseStrBody_cons_plain c rest h1 h2
  by_cases hr3 : c.toNat < 0x10000
  · have hns : c.toNat < 0xD800 ∨ 0xE000 ≤ c.toNat := by
      rcases hvalid with h | h
      · exact Or.inl h
      · exact Or.inr h.1
    rw [hesc, if_neg hr1, if_neg hr2, if_pos hr3,
      parseStrBody_uEscape _ _ (by omega) (by omega) (by omega), Char.ofNat_toNat]
  · have hub : c.toNat < 0x110000 := by
      rcases hvalid with h | h
      · omega
      · exact h.2
    rw [hesc, if_neg hr1, if_neg hr2, if_neg hr3,
      parseStrBody_surrogatePair (0xD800 + (c.toNat - 0x10000) / 0x400)
        (0xDC00 + (c.toNat - 0x10000) % 0x400) rest
        ⟨by omega, by omega⟩ ⟨by omega, by omega⟩]
    have harg : 0x10000 + (0xD800 + (c.toNat - 0x10000) / 0x400 - 0xD800) * 0x400 +
        (0xDC00 + (c.toNat - 0x10000) % 0x400 - 0xDC00) = c.toNat := by
      omega
    rw [harg, Char.ofNat_toNat]

/-- Parsing the emitted body of a string literal recovers its characters. -/
theorem parseStrBody_escaped : ∀ (l : List Char) (rest : List Char),
    parseStrBody (l.flatMap escapeChar ++ '"' :: rest) = some (l, rest) := by
  intro l
  induction l with
  | nil => intro rest; rfl
  | cons c l ih =>
    intro rest
    rw [List.flatMap_cons, List.append_assoc, parseStrBody_escapeChar, ih]
    rfl

/-- Parsing a whole string literal as emitted by `strLit`. -/
theorem parseStrBody_strLit (s : String) (rest : List Char) :
    parseStrBody (s.data.flatMap escapeChar ++ '"' :: rest) = some (s.data, rest) :=
  parseStrBody_escaped s.data rest

mutual

/-- Fuel requirement of `parseValue` on the dump of a value (one unit per
parser call). -/
def jF : Json → Nat
  | .null => 1
  | .bool _ => 1
  | .int _ => 1
  | .str _ => 1
  | .arr xs => 1 + jFL xs
  | .obj kvs => 1 + jFE kvs

/-- Fuel requirement of `parseItems` on the dumped tail of an array. -/
def jFL : List Json → Nat
  | [] => 1
  | x :: xs => 1 + max (jF x) (jFL xs)

/-- Fuel requirement of `parseMembers` on the dumped tail of an object. -/
def jFE : List (String × Json) → Nat
  | [] => 1
  | (_, v) :: kvs => 1 + max (jF v + 1) (jFE kvs)

end

/-- All fuel measures are positive. -/
theorem jF_pos : ∀ j, 1 ≤ jF j := by
  intro j
  cases j <;> simp [jF]

/-- The tail measure for arrays is positive. -/
theorem jFL_pos : ∀ xs, 1 ≤ jFL xs := by
  intro xs
  cases xs <;> simp [jFL]

/-- The tail measure for objects is positive. -/
theorem jFE_pos : ∀ kvs, 1 ≤ jFE kvs := by
  intro kvs
  rcases kvs with _ | ⟨⟨k, v⟩, rest⟩ <;> simp [jFE]

/-- Admissible continuations after a dumped value: end of input or a
structural delimiter, never a digit, sign, fraction or exponent mark. -/
def goodTail : List Char → Prop
  | [] => True
  | c :: _ => c = ',' ∨ c = ']' ∨ c = '\x7d'

/-- Python dict construction is the identity on entry lists with distinct
keys. -/
theorem dictOfPairs_eq_self (kvs : List (String × Json))
    (h : nodupKeys kvs = true) : dictOfPairs kvs = kvs := by
  have aux : ∀ (l : List (String × Json)) (acc : List (String × Json)),
      nodupKeys l = true →
      (∀ p ∈ l, ∀ q ∈ acc, q.1 ≠ p.1) →
      l.foldl (fun acc p => dictInsert acc p.1 p.2) acc = acc ++ l := by
    intro l
    induction l with
    | nil => intro acc _ _; simp
    | cons e rest ih =>
      rcases e with ⟨k, v⟩
      intro acc hnd hdis
      simp only [nodupKeys, Bool.and_eq_true, Bool.not_eq_true'] at hnd
      rw [List.foldl_cons]
      have hins : dictInsert acc k v = acc ++ [(k, v)] := by
        unfold dictInsert
        rw [if_neg]
        simp only [List.any_eq_true, not_exists, not_and]
        intro q hq
        simpa using hdis (k, v) (by simp) q hq
      rw [hins, ih (acc ++ [(k, v)]) hnd.2]
      · simp
      · intro p hp q hq
        rcases List.mem_append.mp hq with hq1 | hq1
        · exact hdis p (by simp [hp]) q hq1
        · simp only [List.mem_singleton] at hq1
          subst hq1
          show k ≠ p.1
          intro hk
          have : (List.any rest fun p' => p'.1 == k) = true :=
            List.any_eq_true.mpr ⟨p, hp, by simp [hk]⟩
          rw [this] at hnd
          exact absurd hnd.1 (by simp)
  unfold dictOfPairs
  rw [aux kvs [] h (by simp)]
  simp

/-- A decimal digit character is not whitespace and not any structural or
keyword-leading character. -/
theorem isDigitC_facts {c : Char} (h : isDigitC c = true) :
    isWs c = false ∧ c ≠ 'n' ∧ c ≠ 't' ∧ c ≠ 'f' ∧ c ≠ '"' ∧ c ≠ '[' ∧
      c ≠ '\x7b' ∧ c ≠ '-' ∧ c ≠ ']' ∧ c ≠ '\x7d' := by
  have hne : ∀ d : Char, isDigitC d = false → c ≠ d := by
    intro d hd he
    rw [he, hd] at h
    exact absurd h (by simp)
  have hws : isWs c = false := by
    have h1 := hne ' ' (by decide)
    have h2 := hne '\x09' (by decide)
    have h3 := hne '\x0a' (by decide)
    have h4 := hne '\x0d' (by decide)
    simp [isWs, h1, h2, h3, h4]
  exact ⟨hws, hne 'n' (by decide), hne 't' (by decide), hne 'f' (by decide),
    hne '"' (by decide), hne '[' (by decide), hne '\x7b' (by decide),
    hne '-' (by decide), hne ']' (by decide), hne '\x7d' (by decide)⟩

/-- The fall-through arm of the value parser, reached when the head is no
keyword, string, array or object opener: the number branch. -/
theorem parseValue_default_arm (fuel : Nat) (c : Char) (rest : List Char)
    (h0 : isWs c = false) (h1 : c ≠ 'n') (h2 : c ≠ 't') (h3 : c ≠ 'f')
    (h4 : c ≠ '"') (h5 : c ≠ '[') (h6 : c ≠ '\x7b') :
    parseValue (fuel + 1) (c :: rest) =
      (if c = '-' ∨ isDigitC c then
        let body := if c = '-' then rest else c :: rest
        let ds := body.takeWhile isDigitC
        let rest' := body.dropWhile isDigitC
        if ds = [] then none
        else if rest'.headD ' ' = '.' ∨ rest'.headD ' ' = 'e' ∨ rest'.headD ' ' = 'E' then
          none
        else if c = '-' then some (.int (-(digitsVal ds : Int)), rest')
        else some (.int (digitsVal ds), rest')
      else none) := by
  rw [parseValue, skipWs_cons_neg _ _ h0]
  split <;> simp_all

/-- The continuation after a dumped value never begins with a digit, dot or
exponent mark. -/
theorem goodTail_facts (rest : List Char) (h : goodTail rest) :
    rest.takeWhile isDigitC = [] ∧ rest.dropWhile isDigitC = rest ∧
      ¬(rest.headD ' ' = '.' ∨ rest.headD ' ' = 'e' ∨ rest.headD ' ' = 'E') := by
  rcases rest with _ | ⟨c, cs⟩
  · exact ⟨rfl, rfl, by decide⟩
  · rcases h with h | h | h <;> subst h <;>
      exact ⟨takeWhile_cons_neg _ _ _ (by decide),
        dropWhile_cons_neg _ _ _ (by decide),
        by intro hcon; rcases hcon with h | h | h <;> simp at h⟩

/-- Parsing the dump of a nonnegative integer. -/
theorem parseValue_number (fuel : Nat) (ds rest : List Char)
    (hne : ds ≠ []) (hdig : ∀ c ∈ ds, isDigitC c = true) (htail : goodTail rest) :
    parseValue (fuel + 1) (ds ++ rest) = some (.int (digitsVal ds), rest) := by
  obtain ⟨htake, hdrop, hhead⟩ := goodTail_facts rest htail
  rcases ds with _ | ⟨c, cs⟩
  · exact absurd rfl hne
  have hc := hdig c (by simp)
  obtain ⟨hws, hn, ht, hf, hq, hlb, hob, hm, _, _⟩ := isDigitC_facts hc
  rw [List.cons_append, parseValue_default_arm fuel c (cs ++ rest) hws hn ht hf hq hlb hob]
  rw [if_pos (Or.inr hc)]
  simp only [if_neg hm]
  rw [show (c :: (cs ++ rest)).takeWhile isDigitC = c :: cs from by
      rw [show c :: (cs ++ rest) = (c :: cs) ++ rest from rfl,
        takeWhile_append_all _ _ _ hdig, htake, List.append_nil],
    show (c :: (cs ++ rest)).dropWhile isDigitC = rest from by
      rw [show c :: (cs ++ rest) = (c :: cs) ++ rest from rfl,
        dropWhile_append_all _ _ _ hdig, hdrop]]
  rw [if_neg (by simp), if_neg hhead]

/-- Parsing the dump of a negative integer. -/
theorem parseValue_negNumber (fuel : Nat) (ds rest : List Char)
    (hne : ds ≠ []) (hdig : ∀ c ∈ ds, isDigitC c = true) (htail : goodTail rest) :
    parseValue (fuel + 1) ('-' :: (ds ++ rest)) =
      some (.int (-(digitsVal ds : Int)), rest) := by
  obtain ⟨htake, hdrop, hhead⟩ := goodTail_facts rest htail
  rw [parseValue_default_arm fuel '-' (ds ++ rest) (by decide) (by decide) (by decide)
    (by decide) (by decide) (by decide) (by decide)]
  rw [if_pos (Or.inl (rfl : ('-' : Char) = '-'))]
  simp only [if_pos (rfl : ('-' : Char) = '-'), if_true]
  rw [show (ds ++ rest).takeWhile isDigitC = ds from by
      rw [takeWhile_append_all _ _ _ hdig, htake, List.append_nil],
    show (ds ++ rest).dropWhile isDigitC = rest from by
      rw [dropWhile_append_all _ _ _ hdig, hdrop]]
  rw [if_neg hne, if_neg hhead]

/-- Every dumped value starts with a distinctive non-whitespace character,
never a closing delimiter. -/
theorem dumpsChars_head : ∀ j : Json, ∃ c cs, dumpsChars j = c :: cs ∧
    isWs c = false ∧ c ≠ ']' ∧ c ≠ '\x7d' := by
  intro j
  cases j with
  | int n =>
    cases n with
    | ofNat m =>
      have hd : dumpsChars (.int (.ofNat m)) = natDigits m := by
        simp [dumpsChars, intToChars, natToChars_eq]
      rcases hnil : natDigits m with _ | ⟨c, cs⟩
      · exact absurd hnil (natDigits_ne_nil m)
      · have hc := natDigits_all_digits m c (by rw [hnil]; simp)
        obtain ⟨hws, _, _, _, _, _, _, _, hr, hbr⟩ := isDigitC_facts hc
        exact ⟨c, cs, by rw [hd, hnil], hws, hr, hbr⟩
    | negSucc m => exact ⟨'-', _, rfl, by decide⟩
  | bool b => cases b with
    | false => exact ⟨'f', _, rfl, by decide⟩
    | true => exact ⟨'t', _, rfl, by decide⟩
  | null => exact ⟨'n', _, rfl, by decide⟩
  | str s => exact ⟨'"', _, rfl, by decide⟩
  | arr xs => cases xs with
    | nil => exact ⟨'[', _, rfl, by decide⟩
    | cons x xs => exact ⟨'[', _, rfl, by decide⟩
  | obj kvs =>
    rcases kvs with _ | ⟨⟨k, v⟩, kvs⟩
    · exact ⟨'\x7b', _, rfl, by decide⟩
    · exact ⟨'\x7b', _, rfl, by decide⟩

/-- Parsing one dumped object member, given that the value parser is
correct at the member's fuel. -/
theorem parseMember_roundtrip (g : Nat) (k : String) (v : Json) (rest' : List Char)
    (hP : parseValue g (dumpsChars v ++ rest') = some (v, rest')) :
    parseMember (g + 1) (strLit k ++ ':' :: ' ' :: (dumpsChars v ++ rest')) =
      some ((k, v), rest') := by
  have hshape : strLit k ++ ':' :: ' ' :: (dumpsChars v ++ rest') =
      '"' :: (k.data.flatMap escapeChar ++ '"' :: (':' :: ' ' :: (dumpsChars v ++ rest'))) := by
    unfold strLit
    simp
  rw [hshape, parseMember, skipWs_cons_neg _ _ (by decide)]
  show (parseStrBody (k.data.flatMap escapeChar ++
      '"' :: (':' :: ' ' :: (dumpsChars v ++ rest')))).bind _ = _
  rw [parseStrBody_strLit]
  show (match skipWs (':' :: ' ' :: (dumpsChars v ++ rest')) with
    | ':' :: r2 => (parseValue g r2).map fun (p : Json × List Char) => ((String.mk k.data, p.1), p.2)
    | _ => (none : Option ((String × Json) × List Char))) = _
  rw [skipWs_cons_neg _ _ (by decide)]
  show (parseValue g (' ' :: (dumpsChars v ++ rest'))).map _ = _
  rw [parseValue_cons_ws _ _ _ (by decide), hP]
  show some ((String.mk k.data, v), rest') = _
  cases k
  rfl

/-- The array arm of the value parser. -/
theorem parseValue_arr_arm (f : Nat) (T : List Char) :
    parseValue (f + 1) ('[' :: T) =
      (match skipWs T with
       | ']' :: rest' => some (.arr [], rest')
       | _ =>
         (parseValue f T).bind fun (v, r1) =>
           (parseItems f r1).map fun (vs, r2) => (.arr (v :: vs), r2)) := by
  rw [parseValue, skipWs_cons_neg _ _ (by decide)]
  rfl

/-- The object arm of the value parser. -/
theorem parseValue_obj_arm (f : Nat) (T : List Char) :
    parseValue (f + 1) ('\x7b' :: T) =
      (match skipWs T with
       | '\x7d' :: rest' => some (.obj [], rest')
       | _ =>
         (parseMember f T).bind fun (kv, r1) =>
           (parseMembers f r1).map fun (kvs, r2) => (.obj (dictOfPairs (kv :: kvs)), r2)) := by
  rw [parseValue, skipWs_cons_neg _ _ (by decide)]
  rfl

/-- The tail after a dumped array element is admissible. -/
theorem dumpsList_goodTail (xs : List Json) (rest : List Char) :
    goodTail (dumpsList xs ++ ']' :: rest) := by
  cases xs with
  | nil => exact Or.inr (Or.inl rfl)
  | cons y ys => exact Or.inl rfl

/-- The tail after a dumped object member is admissible. -/
theorem dumpsEntries_goodTail (kvs : List (String × Json)) (rest : List Char) :
    goodTail (dumpsEntries kvs ++ '\x7d' :: rest) := by
  rcases kvs with _ | ⟨⟨k, v⟩, kvs⟩
  · exact Or.inr (Or.inr rfl)
  · exact Or.inl rfl

/-- `parseMember` itself skips a leading whitespace character. -/
theorem parseMember_cons_ws (fuel : Nat) (c : Char) (l : List Char)
    (h : isWs c = true) : parseMember fuel (c :: l) = parseMember fuel l := by
  cases fuel with
  | zero => rfl
  | succ f => rw [parseMember, parseMember, skipWs_cons_pos c l h]

/-- Skipping whitespace is the identity before a string literal. -/
theorem skipWs_strLit_append (k : String) (X : List Char) :
    skipWs (strLit k ++ X) = strLit k ++ X := by
  show skipWs ('"' :: (k.data.flatMap escapeChar ++ ['"'] ++ X)) = strLit k ++ X
  rw [skipWs_cons_neg _ _ (by decide)]
  rfl

/-- The value, array-tail and member-tail parsers each recover exactly what
the serializer emitted, for any admissible continuation and sufficient
fuel. -/
theorem parse_roundtrip : ∀ fuel : Nat,
    (∀ (j : Json) (rest : List Char), j.wf = true → jF j ≤ fuel → goodTail rest →
      parseValue fuel (dumpsChars j ++ rest) = some (j, rest)) ∧
    (∀ (xs : List Json) (rest : List Char), wfList xs = true → jFL xs ≤ fuel →
      parseItems fuel (dumpsList xs ++ ']' :: rest) = some (xs, rest)) ∧
    (∀ (kvs : List (String × Json)) (rest : List Char), wfEntries kvs = true →
      jFE kvs ≤ fuel →
      parseMembers fuel (dumpsEntries kvs ++ '\x7d' :: rest) = some (kvs, rest)) := by
  intro fuel
  induction fuel using Nat.strong_induction_on with
  | _ fuel ih =>
  rcases fuel with _ | f
  · exact ⟨fun j _ _ h2 _ => absurd h2 (by have := jF_pos j; omega),
      fun xs _ _ h2 => absurd h2 (by have := jFL_pos xs; omega),
      fun kvs _ _ h2 => absurd h2 (by have := jFE_pos kvs; omega)⟩
  refine ⟨?_, ?_, ?_⟩
  · intro j rest hwf hfuel htail
    cases j with
    | null =>
      show parseValue (f + 1) ('n' :: 'u' :: 'l' :: 'l' :: rest) = _
      rw [parseValue, skipWs_cons_neg _ _ (by decide)]
      rfl
    | bool b =>
      cases b with
      | true =>
        show parseValue (f + 1) ('t' :: 'r' :: 'u' :: 'e' :: rest) = _
        rw [parseValue, skipWs_cons_neg _ _ (by decide)]
        rfl
      | false =>
        show parseValue (f + 1) ('f' :: 'a' :: 'l' :: 's' :: 'e' :: rest) = _
        rw [parseValue, skipWs_cons_neg _ _ (by decide)]
        rfl
    | int n =>
      cases n with
      | ofNat m =>
        rw [show dumpsChars (.int (.ofNat m)) = natDigits m from by
            simp [dumpsChars, intToChars, natToChars_eq],
          parseValue_number f _ rest (natDigits_ne_nil m) (natDigits_all_digits m) htail,
          digitsVal_natDigits]
        rfl
      | negSucc m =>
        rw [show dumpsChars (.int (.negSucc m)) = '-' :: natToChars (m + 1) from rfl,
          natToChars_eq, List.cons_append,
          parseValue_negNumber f _ rest (natDigits_ne_nil _) (natDigits_all_digits _) htail,
          digitsVal_natDigits]
        simp [Int.negSucc_eq]
    | str s =>
      rw [show dumpsChars (.str s) ++ rest =
          '"' :: (s.data.flatMap escapeChar ++ '"' :: rest) from by
        simp [dumpsChars, strLit]]
      rw [parseValue, skipWs_cons_neg _ _ (by decide)]
      show (parseStrBody (s.data.flatMap escapeChar ++ '"' :: rest)).map
          (fun p => (Json.str (String.mk p.1), p.2)) = some (Json.str s, rest)
      rw [parseStrBody_strLit]
      cases s
      rfl
    | arr xs =>
      cases xs with
      | nil =>
        show parseValue (f + 1) ('[' :: ']' :: rest) = _
        rw [parseValue_arr_arm]
        rfl
      | cons x xs =>
        simp only [Json.wf, wfList, Bool.and_eq_true] at hwf
        simp only [jF, jFL] at hfuel
        have hfx : jF x ≤ f := by omega
        have hfxs : jFL xs ≤ f := by omega
        rw [show dumpsChars (.arr (x :: xs)) ++ rest =
            '[' :: (dumpsChars x ++ (dumpsList xs ++ ']' :: rest)) from by
          simp [dumpsChars]]
        rw [parseValue_arr_arm]
        obtain ⟨c0, cs0, hc0, hws0, hnbr, _⟩ := dumpsChars_head x
        rw [show skipWs (dumpsChars x ++ (dumpsList xs ++ ']' :: rest)) =
            dumpsChars x ++ (dumpsList xs ++ ']' :: rest) from by
          rw [hc0, List.cons_append, skipWs_cons_neg _ _ hws0]]
        split
        · rename_i heq
          rw [hc0, List.cons_append] at heq
          injection heq with h1 _
          exact absurd h1 hnbr
        · rw [(ih f (by omega)).1 x (dumpsList xs ++ ']' :: rest) hwf.1 hfx
            (dumpsList_goodTail xs rest)]
          show (parseItems f (dumpsList xs ++ ']' :: rest)).map _ = _
          rw [(ih f (by omega)).2.1 xs rest hwf.2 hfxs]
          rfl
    | obj kvs =>
      rcases kvs with _ | ⟨⟨k, v⟩, kvs⟩
      · show parseValue (f + 1) ('\x7b' :: '\x7d' :: rest) = _
        rw [parseValue_obj_arm]
        rfl
      · simp only [Json.wf, nodupKeys, wfEntries, Bool.and_eq_true] at hwf
        obtain ⟨⟨hnk, hnkr⟩, hwv, hwkvs⟩ := hwf
        simp only [jF, jFE] at hfuel
        have hfv : jF v + 1 ≤ f := by omega
        have hfkvs : jFE kvs ≤ f := by omega
        obtain ⟨g, rfl⟩ : ∃ g, f = g + 1 := ⟨f - 1, by have := jF_pos v; omega⟩
        rw [show dumpsChars (.obj ((k, v) :: kvs)) ++ rest =
            '\x7b' :: (strLit k ++ ':' :: ' ' :: (dumpsChars v ++
              (dumpsEntries kvs ++ '\x7d' :: rest))) from by
          simp [dumpsChars]]
        rw [parseValue_obj_arm, skipWs_strLit_append]
        show (parseMember (g + 1) (strLit k ++ ':' :: ' ' :: (dumpsChars v ++
            (dumpsEntries kvs ++ '\x7d' :: rest)))).bind
          (fun p => (parseMembers (g + 1) p.2).map fun q =>
            (Json.obj (dictOfPairs (p.1 :: q.1)), q.2)) =
          some (Json.obj ((k, v) :: kvs), rest)
        rw [parseMember_roundtrip g k v (dumpsEntries kvs ++ '\x7d' :: rest)
          ((ih g (by omega)).1 v (dumpsEntries kvs ++ '\x7d' :: rest) hwv (by omega)
            (dumpsEntries_goodTail kvs rest))]
        show (parseMembers (g + 1) (dumpsEntries kvs ++ '\x7d' :: rest)).map
          (fun q => (Json.obj (dictOfPairs ((k, v) :: q.1)), q.2)) =
          some (Json.obj ((k, v) :: kvs), rest)
        rw [(ih (g + 1) (by omega)).2.2 kvs rest hwkvs (by omega)]
        show some (Json.obj (dictOfPairs ((k, v) :: kvs)), rest) =
          some (Json.obj ((k, v) :: kvs), rest)
        rw [dictOfPairs_eq_self ((k, v) :: kvs) (by simp [nodupKeys, hnk, hnkr])]
  · intro xs rest hwf hfuel
    cases xs with
    | nil =>
      show parseItems (f + 1) (']' :: rest) = _
      rw [parseItems, skipWs_cons_neg _ _ (by decide)]
      rfl
    | cons y ys =>
      simp only [wfList, Bool.and_eq_true] at hwf
      simp only [jFL] at hfuel
      have hfy : jF y ≤ f := by omega
      have hfys : jFL ys ≤ f := by omega
      rw [show dumpsList (y :: ys) ++ ']' :: rest =
          ',' :: ' ' :: (dumpsChars y ++ (dumpsList ys ++ ']' :: rest)) from by
        simp [dumpsList]]
      rw [parseItems, skipWs_cons_neg _ _ (by decide)]
      show (parseValue f (' ' :: (dumpsChars y ++ (dumpsList ys ++ ']' :: rest)))).bind _ = _
      rw [parseValue_cons_ws _ _ _ (by decide),
        (ih f (by omega)).1 y _ hwf.1 hfy (dumpsList_goodTail ys rest)]
      show (parseItems f (dumpsList ys ++ ']' :: rest)).map _ = _
      rw [(ih f (by omega)).2.1 ys rest hwf.2 hfys]
      rfl
  · intro kvs rest hwf hfuel
    rcases kvs with _ | ⟨⟨k, v⟩, kvs⟩
    · show parseMembers (f + 1) ('\x7d' :: rest) = _
      rw [parseMembers, skipWs_cons_neg _ _ (by decide)]
      rfl
    · simp only [wfEntries, Bool.and_eq_true] at hwf
      simp only [jFE] at hfuel
      have hfv : jF v + 1 ≤ f := by omega
      have hfkvs : jFE kvs ≤ f := by omega
      obtain ⟨g, rfl⟩ : ∃ g, f = g + 1 := ⟨f - 1, by have := jF_pos v; omega⟩
      rw [show dumpsEntries ((k, v) :: kvs) ++ '\x7d' :: rest =
          ',' :: ' ' :: (strLit k ++ ':' :: ' ' :: (dumpsChars v ++
            (dumpsEntries kvs ++ '\x7d' :: rest))) from by
        simp [dumpsEntries]]
      rw [parseMembers, skipWs_cons_neg _ _ (by decide)]
      show (parseMember (g + 1) (' ' :: (strLit k ++ ':' :: ' ' :: (dumpsChars v ++
        (dumpsEntries kvs ++ '\x7d' :: rest))))).bind _ = _
      rw [parseMember_cons_ws _ _ _ (by decide),
        parseMember_roundtrip g k v _
          ((ih g (by omega)).1 v _ hwf.1 (by omega) (dumpsEntries_goodTail kvs rest))]
      show (parseMembers (g + 1) (dumpsEntries kvs ++ '\x7d' :: rest)).map _ = _
      rw [(ih (g + 1) (by omega)).2.2 kvs rest hwf.2 (by omega)]
      rfl

/-- The fuel demanded by the parser is within the dump's length plus one,
which is exactly the fuel `loads` supplies. -/
theorem jF_le_length : ∀ j : Json, jF j ≤ (dumpsChars j).length + 1 := by
  have keyL : ∀ ys : List Json, (∀ x ∈ ys, jF x ≤ (dumpsChars x).length + 1) →
      jFL ys ≤ (dumpsList ys).length + 1 := by
    intro ys
    induction ys with
    | nil => intro _; simp [jFL, dumpsList]
    | cons x xs ihl =>
      intro h
      have h1 := h x (by simp)
      have h2 := ihl fun x' hx' => h x' (by simp [hx'])
      simp only [jFL, dumpsList]
      simp only [List.length_cons, List.length_append]
      omega
  have keyE : ∀ l : List (String × Json),
      (∀ p ∈ l, jF p.2 ≤ (dumpsChars p.2).length + 1) →
      jFE l ≤ (dumpsEntries l).length + 1 := by
    intro l
    induction l with
    | nil => intro _; simp [jFE, dumpsEntries]
    | cons e l ihl =>
      rcases e with ⟨k, v⟩
      intro h
      have h1 : jF v ≤ (dumpsChars v).length + 1 := h (k, v) (by simp)
      have h2 := ihl fun p hp => h p (by simp [hp])
      simp only [jFE, dumpsEntries]
      simp only [List.length_cons, List.length_append]
      omega
  intro j
  induction j using Json.recMem with
  | hnull => simp [jF, dumpsChars]
  | hbool b => cases b <;> simp [jF, dumpsChars]
  | hint n => have := jF_pos (.int n); simp [jF]
  | hstr s => simp [jF]
  | harr xs ih =>
    cases xs with
    | nil => simp [jF, jFL, dumpsChars]
    | cons x xs =>
      have h1 := ih x (by simp)
      have h2 := keyL xs fun x' hx' => ih x' (by simp [hx'])
      simp only [jF, jFL, dumpsChars]
      simp only [List.length_cons, List.length_append]
      omega
  | hobj kvs ih =>
    rcases kvs with _ | ⟨⟨k, v⟩, kvs⟩
    · simp [jF, jFE, dumpsChars]
    · have h1 : jF v ≤ (dumpsChars v).length + 1 := ih (k, v) (by simp)
      have h2 := keyE kvs fun p hp => ih p (by simp [hp])
      simp only [jF, jFE, dumpsChars]
      simp only [List.length_cons, List.length_append]
      omega

/-- `json.loads` inverts `json.dumps` on well-formed values. -/
theorem loads_dumps (j : Json) (hwf : j.wf = true) : loads (dumps j) = some j := by
  unfold loads dumps
  show (match parseValue ((dumpsChars j).length + 1) (dumpsChars j) with
    | some (v, rest) => if skipWs rest = [] then some v else none
    | none => none) = some j
  rw [show dumpsChars j = dumpsChars j ++ [] from by simp]
  rw [(parse_roundtrip _).1 j [] hwf (by
      have h1 := jF_le_length j
      simp only [List.append_nil]
      omega) trivial]
  rfl

/-- C8: for every key and well-formed response R, `put(k, …, R)` followed
by `lookup(k)` returns the serialized text of R, and decoding that stored
text yields a value structurally equal to R — the serialize → store →
deserialize round-trip is the identity. -/
theorem claim8_round_trip (store : List CacheRow) (k : String)
    (q : List (String × Json)) (R : Json) (hwf : R.wf = true) :
    Sqlite3CacheProvider.get (Sqlite3CacheProvider.insert store k q R) k =
      some (dumps R) ∧
    loads (dumps R) = some R :=
  ⟨get_insert_self store k q R, loads_dumps R hwf⟩

/-- Witness for C8 on a response exercising every constructor: nested
object, array, string, booleans, negative number and null. -/
theorem claim8_round_trip_witness :
    Sqlite3CacheProvider.get
        (Sqlite3CacheProvider.insert [] "k" []
          (Json.obj [("id", .str "chatcmpl-1"),
            ("choices", .arr [.obj [("index", .int 0), ("ok", .bool true)]]),
            ("n", .int (-5)), ("x", .null)])) "k" =
      some (dumps (Json.obj [("id", .str "chatcmpl-1"),
        ("choices", .arr [.obj [("index", .int 0), ("ok", .bool true)]]),
        ("n", .int (-5)), ("x", .null)])) ∧
    loads (dumps (Json.obj [("id", .str "chatcmpl-1"),
        ("choices", .arr [.obj [("index", .int 0), ("ok", .bool true)]]),
        ("n", .int (-5)), ("x", .null)])) =
      some (Json.obj [("id", .str "chatcmpl-1"),
        ("choices", .arr [.obj [("index", .int 0), ("ok", .bool true)]]),
        ("n", .int (-5)), ("x", .null)]) :=
  claim8_round_trip [] "k" []
    (Json.obj [("id", .str "chatcmpl-1"),
      ("choices", .arr [.obj [("index", .int 0), ("ok", .bool true)]]),
      ("n", .int (-5)), ("x", .null)]) (by decide)
